import Mathlib

/-!
# Verification of the peachy-keen core physics (soft body, rage, explosion)

Shallow embedding of the repository's core subsystems:

* `src/softbody.js` — `SoftBodyPhysics` (vertex groups, neighbor maps,
  impulses, the per-tick mass-spring update, reset-to-rest);
* `src/interaction.js` — rage accumulation/decay and the respawn callback;
* the particle explosion engine (`ParticleExplosion`).

Modelling conventions:
* JavaScript numbers are embedded as elements of a `LinearOrderedField`
  (exact arithmetic; claims are settled against idealized real/rational
  arithmetic, not IEEE-754 rounding).  Definitions that the source writes
  with `Math.sqrt` (via `Vector3.length`) are parametrized by a function
  `sqrt : α → α`; every theorem about those definitions either holds for
  all `sqrt` (and in particular for the code's square root) or is stated
  at `α := ℝ` with `sqrt := Real.sqrt`.
* A `THREE.BufferAttribute` of vertex data of size `count` is embedded as a
  function `ℕ → V3 α` together with the `count`; indices `≥ count` are
  never accessed by the embedded operations (loops run over
  `List.range count`, exactly as the source loops run `i = 0 .. count-1`).
* Comparisons that the source writes as `a.distanceTo(b) < t` are embedded
  as `dist2 a b < t^2`, which is equivalent for nonnegative `t` and avoids
  a spurious square root; places where the *value* of a length matters
  (falloff, `normalize`) use the `sqrt` parameter.
* `Math.random()` draws are embedded as an explicit stream `ℕ → α`.
-/

/-- 3D vector over a scalar type, embedding `THREE.Vector3`. -/
structure V3 (α : Type) where
  x : α
  y : α
  z : α
deriving DecidableEq, Repr

namespace V3

instance [Add α] : Add (V3 α) := ⟨fun a b => ⟨a.x + b.x, a.y + b.y, a.z + b.z⟩⟩

instance [Sub α] : Sub (V3 α) := ⟨fun a b => ⟨a.x - b.x, a.y - b.y, a.z - b.z⟩⟩

instance [Mul α] : SMul α (V3 α) := ⟨fun c v => ⟨c * v.x, c * v.y, c * v.z⟩⟩

instance [Zero α] : Zero (V3 α) := ⟨⟨0, 0, 0⟩⟩

/-- Squared Euclidean norm (`x*x + y*y + z*z`). -/
def norm2 [Add α] [Mul α] (v : V3 α) : α := v.x * v.x + v.y * v.y + v.z * v.z

/-- Squared distance, embedding `a.distanceTo(b)` squared. -/
def dist2 [Add α] [Mul α] [Sub α] (a b : V3 α) : α := norm2 (a - b)

/-- `Vector3.length()`, with the square root passed explicitly. -/
def vlen [Add α] [Mul α] (sqrt : α → α) (v : V3 α) : α := sqrt (norm2 v)

/-- `Vector3.normalize()`: THREE divides by `length || 1`, so the zero
vector is returned unchanged. -/
def normalize [LinearOrderedField α] (sqrt : α → α) (v : V3 α) : V3 α :=
  if vlen sqrt v = 0 then v else (1 / vlen sqrt v) • v

/-- The recurring clamp pattern
`if (v.length() > max) v.normalize().multiplyScalar(max)`. -/
def clampLen [LinearOrderedField α] (sqrt : α → α) (cap : α) (v : V3 α) : V3 α :=
  if cap < vlen sqrt v then cap • normalize sqrt v else v

end V3

/-! ## Vertex grouping (`SoftBodyPhysics.buildVertexGroups`, src/softbody.js:60-104) -/

/-- JavaScript's `Math.round` on exact arithmetic: round half toward
positive infinity, `Math.round(x) = ⌊x + 0.5⌋`. -/
def jsRound [LinearOrderedField α] [FloorRing α] (q : α) : ℤ := ⌊q + 1 / 2⌋

/-- The position key
`Math.round(x/tol) + '_' + Math.round(y/tol) + '_' + Math.round(z/tol)`
with `tol = 0.0001`; the underscore-joined string of integers is embedded
as the (injectively corresponding) integer triple.  JavaScript prints both
`0` and `-0` as `"0"`, matching the single integer `0` here. -/
def posKey [LinearOrderedField α] [FloorRing α] (p : V3 α) : ℤ × ℤ × ℤ :=
  (jsRound (p.x / (1 / 10000)), jsRound (p.y / (1 / 10000)), jsRound (p.z / (1 / 10000)))

/-- The `positionMap` bucket for key `k`: all vertex indices (in insertion
order, i.e. increasing) whose position quantizes to `k`. -/
def keyBucket [LinearOrderedField α] [FloorRing α]
    (pos : ℕ → V3 α) (count : ℕ) (k : ℤ × ℤ × ℤ) : List ℕ :=
  (List.range count).filter (fun j => posKey (pos j) = k)

/-- `buildVertexGroups`: every vertex starts in its own group `[i]`; each
`positionMap` bucket of size `> 1` becomes the shared group of all its
members.  Since buckets partition `0..count-1`, vertex `i`'s final group
is its own key's bucket when that bucket has more than one member, and
`[i]` otherwise. -/
def buildVertexGroups [LinearOrderedField α] [FloorRing α]
    (pos : ℕ → V3 α) (count : ℕ) : ℕ → List ℕ := fun i =>
  let b := keyBucket pos count (posKey (pos i))
  if 1 < b.length then b else [i]

/-! ## Neighbor maps (`buildNeighborMap` / `buildProximityNeighbors`,
src/softbody.js:106-178).  The `Map` from vertex index to neighbor array is
embedded as `ℕ → List ℕ`, with `[]` meaning "no entry" (`has(i) = false`);
the source never stores an empty array. -/

/-- `addNeighbor(vertexIndex, neighborIndex)`: append `b` to `a`'s list
unless already present. -/
def addNeighbor (nm : ℕ → List ℕ) (a b : ℕ) : ℕ → List ℕ := fun i =>
  if i = a then (if b ∈ nm a then nm a else nm a ++ [b]) else nm i

/-- The six `addNeighbor` calls issued for one triangle `(a, b, c)`, in
source order. -/
def addTriangleNeighbors (nm : ℕ → List ℕ) (a b c : ℕ) : ℕ → List ℕ :=
  addNeighbor (addNeighbor (addNeighbor (addNeighbor (addNeighbor (addNeighbor
    nm a b) a c) b a) b c) c a) c b

/-- Neighbor map built from the triangle index buffer. -/
def buildTriNeighborMap (tris : List (ℕ × ℕ × ℕ)) : ℕ → List ℕ :=
  tris.foldl (fun nm t => addTriangleNeighbors nm t.1 t.2.1 t.2.2) (fun _ => [])

/-- `buildProximityNeighbors`: for each vertex `i < count`, scan
`j = 0, step, 2*step, ...` (`step = max(1, ⌊count/100⌋)`) and keep the `j ≠ i`
with `distanceTo < 0.3`; the comparison is embedded squared
(`dist2 < 0.3^2`).  Only indices `i < count` get an entry. -/
def buildProximityNeighbors [LinearOrderedField α]
    (pos : ℕ → V3 α) (count : ℕ) : ℕ → List ℕ := fun i =>
  if i < count then
    let step := max 1 (count / 100)
    ((List.range count).filter (fun j => j % step = 0)).filter
      (fun j => j ≠ i ∧ V3.dist2 (pos i) (pos j) < (3 / 10) ^ 2)
  else []

/-- `buildNeighborMap`: triangle-based when an index buffer exists,
proximity fallback otherwise. -/
def buildNeighborMap [LinearOrderedField α]
    (pos : ℕ → V3 α) (count : ℕ) : Option (List (ℕ × ℕ × ℕ)) → (ℕ → List ℕ)
  | none => buildProximityNeighbors pos count
  | some tris => buildTriNeighborMap tris

/-! ## The soft body state (`SoftBodyPhysics`, src/softbody.js) -/

/-- State of one `SoftBodyPhysics` instance.  The mesh's world transform
(used only by `applyImpulse`) is carried as the two external maps the
source consults: `worldToLocal` (`mesh.worldToLocal`) and `invWorldLinear`
(multiplication by the linear part of `mesh.matrixWorld.invert()`, as used
by `transformDirection` before its internal normalize). -/
structure SoftBody (α : Type) where
  count : ℕ
  positions : ℕ → V3 α
  originalPositions : ℕ → V3 α
  vertexVelocities : ℕ → V3 α
  vertexForces : ℕ → V3 α
  vertexGroups : ℕ → List ℕ
  neighbors : ℕ → List ℕ
  initialized : Bool
  isActive : Bool
  activityTimer : α
  worldToLocal : V3 α → V3 α
  invWorldLinear : V3 α → V3 α

namespace SoftBody

/-- `stiffness = 0.25` (src/softbody.js:24). -/
def stiffnessC (α : Type) [LinearOrderedField α] : α := 25 / 100

/-- `damping = 0.88` (src/softbody.js:25). -/
def dampingC (α : Type) [LinearOrderedField α] : α := 88 / 100

/-- `mass = 1.0` (src/softbody.js:26). -/
def massC (α : Type) [LinearOrderedField α] : α := 1

/-- `propagation = 0.25` (src/softbody.js:27). -/
def propagationC (α : Type) [LinearOrderedField α] : α := 25 / 100

/-- `maxDisplacement = 0.15` (src/softbody.js:28). -/
def maxDisplacementC (α : Type) [LinearOrderedField α] : α := 15 / 100

/-- Constructor plus `init()`: store the rest positions, zero the physics
arrays, build the vertex groups and the neighbor map
(src/softbody.js:9-58). -/
def mk' [LinearOrderedField α] [FloorRing α] (count : ℕ) (pos : ℕ → V3 α)
    (indices : Option (List (ℕ × ℕ × ℕ)))
    (w2l invw : V3 α → V3 α) : SoftBody α where
  count := count
  positions := pos
  originalPositions := pos
  vertexVelocities := fun _ => 0
  vertexForces := fun _ => 0
  vertexGroups := buildVertexGroups pos count
  neighbors := buildNeighborMap pos count indices
  initialized := true
  isActive := false
  activityTimer := 0
  worldToLocal := w2l
  invWorldLinear := invw

/-- `resetToOriginal()` (src/softbody.js:388-401): snap every vertex to its
rest position and zero its velocity and force. -/
def resetToOriginal [LinearOrderedField α] (s : SoftBody α) : SoftBody α :=
  { s with
    positions := fun i => if i < s.count then s.originalPositions i else s.positions i
    vertexVelocities := fun i => if i < s.count then 0 else s.vertexVelocities i
    vertexForces := fun i => if i < s.count then 0 else s.vertexForces i }

/-- `applyImpulse(worldPoint, worldDirection, force)`
(src/softbody.js:180-223): activate for 2.5 s; for every vertex within
`impactRadius = 0.8` of the local impact point, add
`localDirection * (force * falloff^3)` to its velocity and clamp the
velocity length to `maxVelocity = 0.5`.  `localDirection` is
`worldDirection.transformDirection(matrixWorld.invert())`, which applies
the inverse linear map and then normalizes. -/
def applyImpulse [LinearOrderedField α] (sqrt : α → α)
    (worldPoint worldDirection : V3 α) (force : α) (s : SoftBody α) : SoftBody α :=
  let localPoint := s.worldToLocal worldPoint
  let localDirection := V3.normalize sqrt (s.invWorldLinear worldDirection)
  { s with
    isActive := true
    activityTimer := 5 / 2
    vertexVelocities := fun i =>
      if i < s.count then
        let d := V3.vlen sqrt (s.positions i - localPoint)
        if d < 4 / 5 then
          let falloff := 1 - d / (4 / 5)
          let strength := force * falloff * falloff * falloff
          V3.clampLen sqrt (1 / 2) (s.vertexVelocities i + strength • localDirection)
        else s.vertexVelocities i
      else s.vertexVelocities i }

/-- Force-reset phase of `update` (src/softbody.js:239-241). -/
def resetForces [LinearOrderedField α] (s : SoftBody α) : SoftBody α :=
  { s with vertexForces := fun i => if i < s.count then 0 else s.vertexForces i }

/-- Spring phase of `update` (src/softbody.js:244-258):
`F += -stiffness * (current - original)`. -/
def applySpringForces [LinearOrderedField α] (s : SoftBody α) : SoftBody α :=
  { s with vertexForces := fun i =>
      if i < s.count then
        s.vertexForces i + (-stiffnessC α) • (s.positions i - s.originalPositions i)
      else s.vertexForces i }

/-- Neighbor-propagation force on vertex `i` (src/softbody.js:271-282):
sum of `(neighbor - current) * (propagation * 0.1)`. -/
def propagationForce [LinearOrderedField α] (s : SoftBody α) (i : ℕ) : V3 α :=
  (s.neighbors i).foldl
    (fun acc j => acc + (propagationC α * (1 / 10)) • (s.positions j - s.positions i)) 0

/-- Propagation phase of `update` (src/softbody.js:261-283); vertices with
no neighbor entry are skipped. -/
def applyPropagation [LinearOrderedField α] (s : SoftBody α) : SoftBody α :=
  { s with vertexForces := fun i =>
      if i < s.count then
        if s.neighbors i = [] then s.vertexForces i
        else s.vertexForces i + propagationForce s i
      else s.vertexForces i }

/-- The position constraint of `update` (src/softbody.js:333-341 and
370-377): if the candidate position is farther than `maxDisplacement`
from the rest position, clamp the displacement to the cap and halve the
velocity.  Returns the final position and velocity. -/
def constrainDisp [LinearOrderedField α] (sqrt : α → α)
    (newPos orig : V3 α) (v : V3 α) : V3 α × V3 α :=
  let disp := newPos - orig
  if maxDisplacementC α < V3.vlen sqrt disp then
    (orig + maxDisplacementC α • V3.normalize sqrt disp, ((1 : α) / 2) • v)
  else (newPos, v)

/-- One iteration of the integration loop of `update`
(src/softbody.js:289-381) at vertex index `i`, carrying the
`processedGroups` set (as the list of processed representatives). -/
def integStep [LinearOrderedField α] (sqrt : α → α) (delta : α)
    (s : SoftBody α) (processed : List ℕ) (i : ℕ) : SoftBody α × List ℕ :=
  let group := s.vertexGroups i
  if 1 < group.length then
    let rep := group.headI
    if rep ∈ processed then (s, processed)
    else
      let avgForce := (1 / (group.length : α)) •
        (group.foldl (fun acc idx => acc + s.vertexForces idx) 0)
      let acceleration := (1 / massC α) • avgForce
      let v1 := s.vertexVelocities rep + (delta * 60) • acceleration
      let v2 := dampingC α • v1
      let v3 := V3.clampLen sqrt (3 / 10) v2
      let newPos := s.positions rep + (delta * 60) • v3
      let pv := constrainDisp sqrt newPos (s.originalPositions rep) v3
      ({ s with
          positions := fun k =>
            if k ∈ group then pv.1 + (s.originalPositions k - s.originalPositions rep)
            else s.positions k
          vertexVelocities := fun k =>
            if k ∈ group then pv.2 else s.vertexVelocities k },
        rep :: processed)
  else
    let acceleration := (1 / massC α) • s.vertexForces i
    let v1 := s.vertexVelocities i + (delta * 60) • acceleration
    let v2 := dampingC α • v1
    let v3 := V3.clampLen sqrt (3 / 10) v2
    let newPos := s.positions i + (delta * 60) • v3
    let pv := constrainDisp sqrt newPos (s.originalPositions i) v3
    ({ s with
        positions := fun k => if k = i then pv.1 else s.positions k
        vertexVelocities := fun k => if k = i then pv.2 else s.vertexVelocities k },
      processed)

/-- The whole integration loop (src/softbody.js:286-381). -/
def integrate [LinearOrderedField α] (sqrt : α → α) (delta : α)
    (s : SoftBody α) : SoftBody α :=
  ((List.range s.count).foldl (fun p i => integStep sqrt delta p.1 p.2 i) (s, [])).1

/-- `update(delta)` (src/softbody.js:225-386): no-op unless initialized and
active; count the activity timer down and, on expiry, deactivate and snap
back to rest; otherwise run the force phases and the integration loop.
(`needsUpdate` marking and normal recomputation are rendering effects with
no bearing on the physics state.) -/
def update [LinearOrderedField α] (sqrt : α → α) (delta : α)
    (s : SoftBody α) : SoftBody α :=
  if s.initialized && s.isActive then
    let s0 := { s with activityTimer := s.activityTimer - delta }
    if s0.activityTimer ≤ 0 then resetToOriginal { s0 with isActive := false }
    else integrate sqrt delta (applyPropagation (applySpringForces (resetForces s0)))
  else s

end SoftBody

/-! ## Rage accumulation and decay (src/interaction.js) -/

/-- `rageDecayRate = 15` points per second (src/interaction.js:15). -/
def rageDecayRateC (α : Type) [LinearOrderedField α] : α := 15

/-- One rage-affecting operation.
`hit m canExplode` is an accepted smack whose smoothed pointer speed is
`m` (`velocityMagnitude`, a Euclidean norm, hence nonnegative);
`canExplode` models `particleExplosion && !particleExplosion.isActive()`
at the explosion check.  `decay δ` is one `updatePeachPhysics` tick with
frame delta `δ`. -/
inductive RageOp (α : Type) where
  | hit (velocityMagnitude : α) (canExplode : Bool)
  | decay (delta : α)

/-- Apply one operation to the rage level (src/interaction.js:200-272 for
hits, 355-359 for decay): a hit below the `minVelocity = 2` threshold is
ignored; an accepted hit adds `4 + min(m/20, 3) * 3` clamped to 100 and,
at the threshold, triggers the explosion and resets rage to 0; a decay
tick subtracts `15 * δ` clamped to 0 (only when rage is positive). -/
def applyRageOp [LinearOrderedField α] (r : α) : RageOp α → α
  | .hit m canExplode =>
      if m < 2 then r
      else
        let velocityScale := min (m / 20) 3
        let r' := min 100 (r + (4 + velocityScale * 3))
        if 100 ≤ r' ∧ canExplode = true then 0 else r'
  | .decay δ => if 0 < r then max 0 (r - rageDecayRateC α * δ) else r

/-- Run a sequence of rage operations from the initial level 0
(src/interaction.js:14). -/
def runRage [LinearOrderedField α] (ops : List (RageOp α)) : α :=
  ops.foldl applyRageOp 0

/-- Well-formed operation: pointer speeds are Euclidean norms (`≥ 0`) and
frame deltas are elapsed times (`≥ 0`). -/
def RageOpWF [LinearOrderedField α] : RageOp α → Prop
  | .hit m _ => 0 ≤ m
  | .decay δ => 0 ≤ δ

/-! ## Particle explosion engine (`ParticleExplosion`) -/

/-- One explosion particle (position/velocity/spin plus fade state). -/
structure Particle (α : Type) where
  position : V3 α
  velocity : V3 α
  angularVelocity : V3 α
  rotation : V3 α
  scale : α
  opacity : α
  emissiveIntensity : α
  transparent : Bool

/-- The data of one source mesh as seen by the engine: vertex buffer,
world transform (`applyMatrix4(matrixWorld)`), and visibility flag. -/
structure MeshData (α : Type) where
  count : ℕ
  pos : ℕ → V3 α
  world : V3 α → V3 α
  visible : Bool

/-- `ParticleExplosion` state.  `completionCount` counts invocations of the
`onComplete` callback (the completion signal). -/
structure PExplosion (α : Type) where
  meshes : List (MeshData α)
  particles : List (Particle α)
  isExploding : Bool
  explosionTimer : α
  completionCount : ℕ

namespace PExplosion

/-- `explosionForce = 8.0`. -/
def explosionForceC (α : Type) [LinearOrderedField α] : α := 8

/-- `fallDuration = 4.0` seconds. -/
def fallDurationC (α : Type) [LinearOrderedField α] : α := 4

/-- Vertex indices sampled by `createParticlesFromMesh`:
`i = 0, r, 2r, ...` with `samplingRate r = max(1, ⌊count/300⌋)`. -/
def sampleIndices (count : ℕ) : List ℕ :=
  (List.range count).filter (fun i => i % max 1 (count / 300) = 0)

/-- `createParticlesFromMesh`: one particle per sampled vertex, at the
world-transformed vertex position, with zeroed physics data. -/
def createParticlesFromMesh [LinearOrderedField α] (s : PExplosion α) :
    List (Particle α) :=
  s.meshes.foldl (fun acc m =>
    acc ++ (sampleIndices m.count).map (fun i =>
      { position := m.world (m.pos i)
        velocity := 0
        angularVelocity := 0
        rotation := 0
        scale := 1
        opacity := 1
        emissiveIntensity := 3 / 10
        transparent := false })) []

/-- `applyExplosionForces`: seed radial velocities from the particle
centroid with jitter, a randomized magnitude, and upward bias, plus random
rotations and spins.  `rnd k` is the `k`-th `Math.random()` draw (each
particle consumes ten draws in source order) and `piv` stands for
`Math.PI`. -/
def applyExplosionForces [LinearOrderedField α] (sqrt : α → α)
    (rnd : ℕ → α) (piv : α) (ps : List (Particle α)) : List (Particle α) :=
  let center := ((1 : α) / (ps.length : α)) •
    (ps.foldl (fun acc p => acc + p.position) 0)
  ps.enum.map (fun kp =>
    let k := kp.1
    let p := kp.2
    let d0 := V3.normalize sqrt (p.position - center)
    let d1 : V3 α := ⟨d0.x + (rnd (10 * k) - 1 / 2) * (1 / 2),
                      d0.y + (rnd (10 * k + 1) - 1 / 2) * (1 / 2),
                      d0.z + (rnd (10 * k + 2) - 1 / 2) * (1 / 2)⟩
    let dir := V3.normalize sqrt d1
    let forceMagnitude := explosionForceC α * (7 / 10 + rnd (10 * k + 3) * (6 / 10))
    let v0 := forceMagnitude • dir
    { p with
        velocity := ⟨v0.x, v0.y + 2, v0.z⟩
        rotation := ⟨rnd (10 * k + 4) * piv, rnd (10 * k + 5) * piv,
                     rnd (10 * k + 6) * piv⟩
        angularVelocity := ⟨(rnd (10 * k + 7) - 1 / 2) * 10,
                            (rnd (10 * k + 8) - 1 / 2) * 10,
                            (rnd (10 * k + 9) - 1 / 2) * 10⟩ })

/-- `explode()`: rejected outright while already exploding; otherwise mark
exploding, zero the timer, hide the meshes, clear old particles, spawn the
batch and seed its forces. -/
def explode [LinearOrderedField α] (sqrt : α → α) (rnd : ℕ → α) (piv : α)
    (s : PExplosion α) : PExplosion α :=
  if s.isExploding then s
  else
    let s1 : PExplosion α := { s with
      isExploding := true
      explosionTimer := 0
      meshes := s.meshes.map (fun m => { m with visible := false })
      particles := [] }
    { s1 with particles := applyExplosionForces sqrt rnd piv (createParticlesFromMesh s1) }

/-- Per-particle physics of `update` (gravity, drag, integration, spin
slowdown, emissive pulse / fade-out).  `timer` is the already-incremented
explosion timer and `sinf` stands for `Math.sin`. -/
def particleStep [LinearOrderedField α] (sinf : α → α) (delta timer fadeProgress : α)
    (p : Particle α) : Particle α :=
  let vel : V3 α := ⟨p.velocity.x * (99 / 100), p.velocity.y - 15 * delta,
                     p.velocity.z * (99 / 100)⟩
  let p1 := { p with
    velocity := vel
    position := p.position + delta • vel
    rotation := p.rotation + delta • p.angularVelocity
    angularVelocity := (98 / 100 : α) • p.angularVelocity }
  if fadeProgress = 0 then
    { p1 with emissiveIntensity := 3 / 10 + sinf (timer * 10) * (2 / 10) }
  else
    let fadeAmount := 1 - fadeProgress
    { p1 with
        scale := fadeAmount
        opacity := fadeAmount
        transparent := true
        emissiveIntensity := (3 / 10) * fadeAmount }

/-- `finishExplosion()`: clear the particles, leave the exploding state and
fire the completion callback. -/
def finishExplosion [LinearOrderedField α] (s : PExplosion α) : PExplosion α :=
  { s with
    particles := []
    isExploding := false
    explosionTimer := 0
    completionCount := s.completionCount + 1 }

/-- `update(delta)`: no-op unless exploding; advance the timer, step every
particle (with the fade window starting at 2.5 s over 1.5 s), and finish
once the timer reaches `fallDuration`. -/
def update [LinearOrderedField α] (sinf : α → α) (delta : α)
    (s : PExplosion α) : PExplosion α :=
  if s.isExploding then
    let timer := s.explosionTimer + delta
    let fadeProgress := if 5 / 2 < timer then min 1 ((timer - 5 / 2) / (3 / 2)) else 0
    let s1 := { s with
      explosionTimer := timer
      particles := s.particles.map (particleStep sinf delta timer fadeProgress) }
    if fallDurationC α ≤ timer then finishExplosion s1 else s1
  else s

end PExplosion

/-! ## The respawn callback (src/interaction.js:88-117)

The callback runs when the particle explosion reports completion.  Its
soft-body reset step is `softBody.resetToOriginalImmediate()`; JavaScript
resolves the method name on the `SoftBodyPhysics` instance at call time
and throws a `TypeError` when the property is `undefined`, so the call is
embedded as a dispatch over the names of the methods the class actually
defines (src/softbody.js), with a thrown `TypeError` as `Except.error`. -/

/-- The methods defined on `SoftBodyPhysics` (src/softbody.js:36-408). -/
def softBodyPhysicsMethodNames : List String :=
  ["init", "buildVertexGroups", "buildNeighborMap", "buildProximityNeighbors",
   "addNeighbor", "applyImpulse", "update", "resetToOriginal", "dispose"]

/-- Call a zero-argument method on a soft body by name.  Of the defined
names, only `resetToOriginal` is a zero-argument state mutator; an
undefined name throws. -/
def callSoftBodyNoArgMethod [LinearOrderedField α] (name : String)
    (s : SoftBody α) : Except String (SoftBody α) :=
  if name ∈ softBodyPhysicsMethodNames then
    if name = "resetToOriginal" then Except.ok s.resetToOriginal else Except.ok s
  else Except.error ("TypeError: softBody." ++ name ++ " is not a function")

/-- The interaction-level state touched by the respawn callback. -/
structure RespawnState (α : Type) where
  meshesVisible : Bool
  isRespawning : Bool
  respawnTimer : α
  softBodies : List (SoftBody α)

/-- The respawn callback: show the meshes, enter the Respawning state, and
reset every soft body via `resetToOriginalImmediate` — propagating the
`TypeError` (an uncaught exception) if that method does not exist. -/
def respawnCallback [LinearOrderedField α] (st : RespawnState α) :
    Except String (RespawnState α) := do
  let st1 : RespawnState α :=
    { st with meshesVisible := true, isRespawning := true, respawnTimer := 0 }
  let sbs ← st1.softBodies.mapM (callSoftBodyNoArgMethod "resetToOriginalImmediate")
  pure { st1 with softBodies := sbs }

/-! ## Well-formedness of built vertex groups, and reachable soft-body
states -/

/-- The partition property the built vertex groups enjoy: every vertex
below `count` is a member of its own group, and all members of a group
(all below `count`) share that same group object. -/
def GroupsWF (g : ℕ → List ℕ) (count : ℕ) : Prop :=
  ∀ i < count, i ∈ g i ∧ ∀ j ∈ g i, j < count ∧ g j = g i

/-- Soft-body states reachable through the API, over the code's scalar
(`ℝ`) and square root: freshly constructed, hit by an impulse, or stepped
by an update tick. -/
inductive Reachable : SoftBody ℝ → Prop where
  | init (count : ℕ) (pos : ℕ → V3 ℝ) (indices : Option (List (ℕ × ℕ × ℕ)))
      (w2l invw : V3 ℝ → V3 ℝ) :
      Reachable (SoftBody.mk' count pos indices w2l invw)
  | impulse (s : SoftBody ℝ) (wp wd : V3 ℝ) (f : ℝ) :
      Reachable s → Reachable (SoftBody.applyImpulse Real.sqrt wp wd f s)
  | tick (s : SoftBody ℝ) (delta : ℝ) :
      Reachable s → Reachable (SoftBody.update Real.sqrt delta s)

/-! ## Concrete instances used by witnesses and counterexamples -/

/-- Two vertices that quantize to the same position key
(`0.00004/0.0001 = 0.4` and `-0.00004/0.0001 = -0.4` both round to `0`)
but have different exact rest positions. -/
def pairedPos : ℕ → V3 ℚ := fun i =>
  if i = 0 then ⟨4 / 100000, 0, 0⟩ else ⟨-4 / 100000, 0, 0⟩

/-- A two-vertex soft body whose vertices share one vertex group yet have
distinct rest positions. -/
def sbPaired : SoftBody ℚ := SoftBody.mk' 2 pairedPos none id id

/-- `sbPaired` in the Active state (as after an `applyImpulse`: the impulse
sets `isActive` and the timer and touches nothing else relevant here). -/
def sbPairedActive : SoftBody ℚ :=
  { sbPaired with isActive := true, activityTimer := 1 / 10 }

/-- A one-vertex active soft body over `ℚ` for witnesses. -/
def sbSingleActive : SoftBody ℚ :=
  { SoftBody.mk' 1 (fun _ => 0) none id id with
      isActive := true, activityTimer := 1 / 10 }

/-- Two hundred coincident vertices: enough vertices that the proximity
fallback samples with stride `⌊200/100⌋ = 2`. -/
def densePos : ℕ → V3 ℚ := fun _ => 0

/-- A minimal exploding engine state over `ℚ` for witnesses. -/
def pexExploding : PExplosion ℚ :=
  { meshes := []
    particles := []
    isExploding := true
    explosionTimer := 0
    completionCount := 0 }

/-- A respawn-callback state holding one (freshly built) soft body — the
normal situation when the explosion of the peach completes. -/
def respawnStateOneBody : RespawnState ℚ :=
  { meshesVisible := false
    isRespawning := false
    respawnTimer := 0
    softBodies := [SoftBody.mk' 1 (fun _ => 0) none id id] }

/-- Two vertices whose coordinates differ by `0.000002` on the x axis —
well within the grouping tolerance `0.0001` on every axis — but which
quantize to different keys (`0.49` rounds to `0`, `0.51` rounds to `1`). -/
def epsPos : ℕ → V3 ℚ := fun i =>
  if i = 0 then ⟨49 / 1000000, 0, 0⟩ else ⟨51 / 1000000, 0, 0⟩

/-- Symmetry of a neighbor map: if `b` is in `a`'s list then `a` is in
`b`'s. -/
def NeighborSym (nm : ℕ → List ℕ) : Prop := ∀ a b, b ∈ nm a → a ∈ nm b

/-- Two vertices on the x axis, at distances 0 and 0.4 from the origin. -/
noncomputable def cexPos : ℕ → V3 ℝ := fun i =>
  if i = 1 then ⟨2 / 5, 0, 0⟩ else 0

/-- A freshly built two-vertex soft body over the code's scalar (`ℝ`),
with the identity world transform. -/
noncomputable def sbImpulse : SoftBody ℝ := SoftBody.mk' 2 cexPos none id id

/-- Invariant carried through the integration loop: the bookkeeping fields
still agree with the starting state `s`, and every group whose
representative is recorded in `processed` has already received its shared
fanned-out position (one base position plus the per-member rest offset)
and its shared velocity. -/
def FanoutInv [LinearOrderedField α] (s t : SoftBody α) (P : List ℕ) : Prop :=
  t.vertexGroups = s.vertexGroups ∧ t.originalPositions = s.originalPositions ∧
    t.count = s.count ∧
    ∀ rep ∈ P, rep < s.count ∧ 1 < (s.vertexGroups rep).length ∧
      rep = (s.vertexGroups rep).headI ∧
      ∃ np v, ∀ j ∈ s.vertexGroups rep,
        t.positions j = np + (s.originalPositions j - s.originalPositions rep) ∧
        t.vertexVelocities j = v

/-! ## Theorems.  (Any further definition is inserted above this marker.) -/

theorem applyRageOp_bounds [LinearOrderedField α] (r : α) (op : RageOp α)
    (hwf : RageOpWF op) (h0 : 0 ≤ r) (h1 : r ≤ 100) :
    0 ≤ applyRageOp r op ∧ applyRageOp r op ≤ 100 := by
  cases op with
  | hit m canExplode =>
    simp only [RageOpWF] at hwf
    simp only [applyRageOp]
    split
    · exact ⟨h0, h1⟩
    · have hmin : (0 : α) ≤ min (m / 20) 3 := le_min (by positivity) (by norm_num)
      split
      · norm_num
      · refine ⟨le_min (by norm_num) (by nlinarith), min_le_left _ _⟩
  | decay δ =>
    simp only [RageOpWF] at hwf
    simp only [applyRageOp]
    split
    · have h15 : (0 : α) ≤ rageDecayRateC α * δ := by
        have : (0 : α) ≤ rageDecayRateC α := by norm_num [rageDecayRateC]
        exact mul_nonneg this hwf
      exact ⟨le_max_left _ _, max_le (by norm_num) (by linarith)⟩
    · exact ⟨h0, h1⟩

theorem runRage_foldl_bounds [LinearOrderedField α] (ops : List (RageOp α)) :
    ∀ r : α, (∀ op ∈ ops, RageOpWF op) → 0 ≤ r → r ≤ 100 →
      0 ≤ ops.foldl applyRageOp r ∧ ops.foldl applyRageOp r ≤ 100 := by
  induction ops with
  | nil => intro r _ h0 h1; simpa using ⟨h0, h1⟩
  | cons op rest ih =>
    intro r hwf h0 h1
    simp only [List.foldl_cons]
    have hb := applyRageOp_bounds r op (hwf op (by simp)) h0 h1
    exact ih _ (fun o ho => hwf o (by simp [ho])) hb.1 hb.2

/-- C1: starting from rage 0, the rage level stays in `[0, 100]` after any
sequence of accepted hits (each adding its rage increase, clamped to 100,
possibly triggering the explosion reset) and per-tick decay steps (each
subtracting `rageDecayRate * delta`, clamped to 0), for nonnegative
pointer speeds and frame deltas. -/
theorem rage_level_in_range [LinearOrderedField α] (ops : List (RageOp α))
    (hwf : ∀ op ∈ ops, RageOpWF op) :
    0 ≤ runRage ops ∧ runRage ops ≤ 100 := by
  simpa [runRage] using runRage_foldl_bounds ops 0 hwf le_rfl (by norm_num)

/-- Witness for C1 at a concrete operation sequence: a hard hit, a decay
tick, a hit that triggers the explosion reset, another decay tick. -/
theorem rage_level_in_range_witness :
    (∀ op ∈ ([RageOp.hit 30 false, RageOp.decay (1 / 2), RageOp.hit 3000 true,
        RageOp.decay 1] : List (RageOp ℚ)), RageOpWF op) ∧
      (0 ≤ runRage ([RageOp.hit 30 false, RageOp.decay (1 / 2),
          RageOp.hit 3000 true, RageOp.decay 1] : List (RageOp ℚ)) ∧
        runRage ([RageOp.hit 30 false, RageOp.decay (1 / 2),
          RageOp.hit 3000 true, RageOp.decay 1] : List (RageOp ℚ)) ≤ 100) := by
  constructor
  · intro op hop
    simp only [List.mem_cons, List.not_mem_nil, or_false] at hop
    rcases hop with rfl | rfl | rfl | rfl <;> norm_num [RageOpWF]
  · refine rage_level_in_range _ ?_
    intro op hop
    simp only [List.mem_cons, List.not_mem_nil, or_false] at hop
    rcases hop with rfl | rfl | rfl | rfl <;> norm_num [RageOpWF]

/-- C2 (code bug): when the explosion completes and the respawn callback
runs with at least one soft body registered — the normal case — the
callback's soft-body reset step calls `resetToOriginalImmediate`, a method
`SoftBodyPhysics` does not define, so the transition throws an uncaught
`TypeError` and the soft-body state is never reset (the spec requires a
reset to rest positions with nothing thrown). -/
theorem respawn_callback_throws :
    respawnCallback respawnStateOneBody =
        Except.error "TypeError: softBody.resetToOriginalImmediate is not a function" ∧
      "resetToOriginalImmediate" ∉ softBodyPhysicsMethodNames := by
  exact ⟨rfl, by decide⟩

/-- Branch equation for `update`: no-op when uninitialized or idle. -/
theorem update_of_idle [LinearOrderedField α] (sqrt : α → α) (delta : α)
    (s : SoftBody α) (h : ¬(s.initialized = true ∧ s.isActive = true)) :
    SoftBody.update sqrt delta s = s := by
  rw [SoftBody.update, if_neg]
  simpa [Bool.and_eq_true] using h

/-- Branch equation for `update`: the expiry branch. -/
theorem update_of_expired [LinearOrderedField α] (sqrt : α → α) (delta : α)
    (s : SoftBody α) (hinit : s.initialized = true) (hact : s.isActive = true)
    (hexp : s.activityTimer - delta ≤ 0) :
    SoftBody.update sqrt delta s =
      SoftBody.resetToOriginal
        { s with isActive := false, activityTimer := s.activityTimer - delta } := by
  have hcond : (s.initialized && s.isActive) = true := by simp [hinit, hact]
  rw [SoftBody.update, if_pos hcond]
  exact if_pos hexp

/-- Branch equation for `update`: the running (integration) branch. -/
theorem update_of_running [LinearOrderedField α] (sqrt : α → α) (delta : α)
    (s : SoftBody α) (hinit : s.initialized = true) (hact : s.isActive = true)
    (hrun : 0 < s.activityTimer - delta) :
    SoftBody.update sqrt delta s =
      SoftBody.integrate sqrt delta
        (SoftBody.applyPropagation (SoftBody.applySpringForces
          (SoftBody.resetForces { s with activityTimer := s.activityTimer - delta }))) := by
  have hcond : (s.initialized && s.isActive) = true := by simp [hinit, hact]
  rw [SoftBody.update, if_pos hcond]
  exact if_neg (not_le.mpr hrun)

/-- C5: on the update tick at which the activity timer reaches or passes
zero, an initialized active soft body transitions to Idle, every vertex
position is snapped to its stored rest position, and every vertex velocity
and force is zeroed.  Holds for any scalar field and any square root, in
particular for the code's. -/
theorem update_timer_expiry [LinearOrderedField α] (sqrt : α → α) (delta : α)
    (s : SoftBody α) (hinit : s.initialized = true) (hact : s.isActive = true)
    (hexp : s.activityTimer - delta ≤ 0) :
    (SoftBody.update sqrt delta s).isActive = false ∧
      ∀ i < s.count,
        (SoftBody.update sqrt delta s).positions i = s.originalPositions i ∧
          (SoftBody.update sqrt delta s).vertexVelocities i = 0 ∧
          (SoftBody.update sqrt delta s).vertexForces i = 0 := by
  rw [update_of_expired sqrt delta s hinit hact hexp]
  refine ⟨rfl, fun i hi => ?_⟩
  simp only [SoftBody.resetToOriginal]
  exact ⟨by simp [hi], by simp [hi], by simp [hi]⟩

/-- Witness for C5: a concrete one-vertex active body whose timer (0.1 s)
expires on a 1 s tick. -/
theorem update_timer_expiry_witness :
    sbSingleActive.initialized = true ∧ sbSingleActive.isActive = true ∧
      sbSingleActive.activityTimer - 1 ≤ 0 ∧
      ((SoftBody.update id 1 sbSingleActive).isActive = false ∧
        ∀ i < sbSingleActive.count,
          (SoftBody.update id 1 sbSingleActive).positions i =
              sbSingleActive.originalPositions i ∧
            (SoftBody.update id 1 sbSingleActive).vertexVelocities i = 0 ∧
            (SoftBody.update id 1 sbSingleActive).vertexForces i = 0) :=
  ⟨rfl, rfl, by norm_num [sbSingleActive],
    update_timer_expiry id 1 sbSingleActive rfl rfl (by norm_num [sbSingleActive])⟩

/-- C10: `applyImpulse` mutates only the per-vertex velocities, the
activity flag and the activity timer; in particular every current position
and every stored rest position (and the forces, groups, neighbor map,
vertex count and initialization flag) are unchanged. -/
theorem applyImpulse_frame [LinearOrderedField α] (sqrt : α → α)
    (wp wd : V3 α) (f : α) (s : SoftBody α) :
    (SoftBody.applyImpulse sqrt wp wd f s).positions = s.positions ∧
      (SoftBody.applyImpulse sqrt wp wd f s).originalPositions = s.originalPositions ∧
      (SoftBody.applyImpulse sqrt wp wd f s).vertexForces = s.vertexForces ∧
      (SoftBody.applyImpulse sqrt wp wd f s).vertexGroups = s.vertexGroups ∧
      (SoftBody.applyImpulse sqrt wp wd f s).neighbors = s.neighbors ∧
      (SoftBody.applyImpulse sqrt wp wd f s).count = s.count ∧
      (SoftBody.applyImpulse sqrt wp wd f s).initialized = s.initialized :=
  ⟨rfl, rfl, rfl, rfl, rfl, rfl, rfl⟩

theorem V3.add_x [Add α] (a b : V3 α) : (a + b).x = a.x + b.x := rfl

theorem V3.add_y [Add α] (a b : V3 α) : (a + b).y = a.y + b.y := rfl

theorem V3.add_z [Add α] (a b : V3 α) : (a + b).z = a.z + b.z := rfl

theorem V3.sub_x [Sub α] (a b : V3 α) : (a - b).x = a.x - b.x := rfl

theorem V3.sub_y [Sub α] (a b : V3 α) : (a - b).y = a.y - b.y := rfl

theorem V3.sub_z [Sub α] (a b : V3 α) : (a - b).z = a.z - b.z := rfl

theorem V3.smul_x [Mul α] (c : α) (v : V3 α) : (c • v).x = c * v.x := rfl

theorem V3.smul_y [Mul α] (c : α) (v : V3 α) : (c • v).y = c * v.y := rfl

theorem V3.smul_z [Mul α] (c : α) (v : V3 α) : (c • v).z = c * v.z := rfl

theorem V3.zero_x [Zero α] : (0 : V3 α).x = 0 := rfl

theorem V3.zero_y [Zero α] : (0 : V3 α).y = 0 := rfl

theorem V3.zero_z [Zero α] : (0 : V3 α).z = 0 := rfl

theorem V3.dist2_comm [LinearOrderedField α] (a b : V3 α) :
    V3.dist2 a b = V3.dist2 b a := by
  simp only [V3.dist2, V3.norm2, V3.sub_x, V3.sub_y, V3.sub_z]
  ring

theorem mem_keyBucket [LinearOrderedField α] [FloorRing α]
    (pos : ℕ → V3 α) (count : ℕ) (k : ℤ × ℤ × ℤ) (j : ℕ) :
    j ∈ keyBucket pos count k ↔ j < count ∧ posKey (pos j) = k := by
  simp [keyBucket, List.mem_filter, List.mem_range]

theorem buildVertexGroups_eq [LinearOrderedField α] [FloorRing α]
    (pos : ℕ → V3 α) (count i : ℕ) :
    buildVertexGroups pos count i =
      if 1 < (keyBucket pos count (posKey (pos i))).length
      then keyBucket pos count (posKey (pos i)) else [i] := rfl

/-- C9 (amended): any two vertices below `count` whose positions quantize
to the same key (`Math.round(coord / 0.0001)` per axis) land in the same
vertex group; two vertices merely within the tolerance on each axis, but
quantizing differently, need not. -/
theorem buildVertexGroups_same_key [LinearOrderedField α] [FloorRing α]
    (pos : ℕ → V3 α) (count i j : ℕ) (hi : i < count) (hj : j < count)
    (hkey : posKey (pos i) = posKey (pos j)) :
    j ∈ buildVertexGroups pos count i := by
  have hjb : j ∈ keyBucket pos count (posKey (pos i)) :=
    (mem_keyBucket pos count _ j).mpr ⟨hj, hkey.symm⟩
  have hib : i ∈ keyBucket pos count (posKey (pos i)) :=
    (mem_keyBucket pos count _ i).mpr ⟨hi, rfl⟩
  by_cases hij : i = j
  · subst hij
    rw [buildVertexGroups_eq]
    split
    · exact hib
    · simp
  · have hlen : 1 < (keyBucket pos count (posKey (pos i))).length := by
      rcases hb : keyBucket pos count (posKey (pos i)) with _ | ⟨a, _ | ⟨c, t⟩⟩
      · rw [hb] at hib; simp at hib
      · rw [hb] at hib hjb
        simp only [List.mem_singleton] at hib hjb
        exact absurd (hib.trans hjb.symm) hij
      · simp
    rw [buildVertexGroups_eq, if_pos hlen]
    exact hjb

theorem pairedPos_key0 : posKey (pairedPos 0) = (0, 0, 0) := by
  have hx : (pairedPos 0).x / (1 / 10000) + 1 / 2 = (9 : ℚ) / 10 := by
    norm_num [pairedPos]
  have hy : (pairedPos 0).y / (1 / 10000) + 1 / 2 = (1 : ℚ) / 2 := by
    norm_num [pairedPos]
  have hz : (pairedPos 0).z / (1 / 10000) + 1 / 2 = (1 : ℚ) / 2 := by
    norm_num [pairedPos]
  simp only [posKey, jsRound, hx, hy, hz, Prod.mk.injEq]
  refine ⟨?_, ?_, ?_⟩ <;> (rw [Int.floor_eq_iff]; norm_num)

theorem pairedPos_key1 : posKey (pairedPos 1) = (0, 0, 0) := by
  have hx : (pairedPos 1).x / (1 / 10000) + 1 / 2 = (1 : ℚ) / 10 := by
    norm_num [pairedPos]
  have hy : (pairedPos 1).y / (1 / 10000) + 1 / 2 = (1 : ℚ) / 2 := by
    norm_num [pairedPos]
  have hz : (pairedPos 1).z / (1 / 10000) + 1 / 2 = (1 : ℚ) / 2 := by
    norm_num [pairedPos]
  simp only [posKey, jsRound, hx, hy, hz, Prod.mk.injEq]
  refine ⟨?_, ?_, ?_⟩ <;> (rw [Int.floor_eq_iff]; norm_num)

theorem epsPos_key0 : posKey (epsPos 0) = (0, 0, 0) := by
  have hx : (epsPos 0).x / (1 / 10000) + 1 / 2 = (99 : ℚ) / 100 := by
    norm_num [epsPos]
  have hy : (epsPos 0).y / (1 / 10000) + 1 / 2 = (1 : ℚ) / 2 := by
    norm_num [epsPos]
  have hz : (epsPos 0).z / (1 / 10000) + 1 / 2 = (1 : ℚ) / 2 := by
    norm_num [epsPos]
  simp only [posKey, jsRound, hx, hy, hz, Prod.mk.injEq]
  refine ⟨?_, ?_, ?_⟩ <;> (rw [Int.floor_eq_iff]; norm_num)

theorem epsPos_key1 : posKey (epsPos 1) = (1, 0, 0) := by
  have hx : (epsPos 1).x / (1 / 10000) + 1 / 2 = (101 : ℚ) / 100 := by
    norm_num [epsPos]
  have hy : (epsPos 1).y / (1 / 10000) + 1 / 2 = (1 : ℚ) / 2 := by
    norm_num [epsPos]
  have hz : (epsPos 1).z / (1 / 10000) + 1 / 2 = (1 : ℚ) / 2 := by
    norm_num [epsPos]
  simp only [posKey, jsRound, hx, hy, hz, Prod.mk.injEq]
  refine ⟨?_, ?_, ?_⟩ <;> (rw [Int.floor_eq_iff]; norm_num)

/-- Witness for C9's amended theorem: `pairedPos`'s two vertices quantize
identically and share a group. -/
theorem buildVertexGroups_same_key_witness :
    (0 : ℕ) < 2 ∧ (1 : ℕ) < 2 ∧ posKey (pairedPos 0) = posKey (pairedPos 1) ∧
      1 ∈ buildVertexGroups pairedPos 2 0 :=
  ⟨by norm_num, by norm_num, by rw [pairedPos_key0, pairedPos_key1],
    buildVertexGroups_same_key pairedPos 2 0 1 (by norm_num) (by norm_num)
      (by rw [pairedPos_key0, pairedPos_key1])⟩

/-- C9 counterexample: `epsPos`'s two vertices are within the tolerance
`0.0001` on every axis, yet they do not land in the same group (the claim
as stated requires them to). -/
theorem buildVertexGroups_eps_counterexample :
    (|(epsPos 0).x - (epsPos 1).x| ≤ 1 / 10000 ∧
        |(epsPos 0).y - (epsPos 1).y| ≤ 1 / 10000 ∧
        |(epsPos 0).z - (epsPos 1).z| ≤ 1 / 10000) ∧
      1 ∉ buildVertexGroups epsPos 2 0 := by
  refine ⟨⟨by norm_num [epsPos, abs_le], by norm_num [epsPos, abs_le],
    by norm_num [epsPos, abs_le]⟩, ?_⟩
  intro hmem
  rw [buildVertexGroups_eq] at hmem
  have h1 : (1 : ℕ) ∉ keyBucket epsPos 2 (posKey (epsPos 0)) := by
    rw [mem_keyBucket, epsPos_key0, epsPos_key1]
    simp
  split at hmem
  · exact h1 hmem
  · simp at hmem

theorem mem_addNeighbor (nm : ℕ → List ℕ) (a b x y : ℕ) :
    x ∈ addNeighbor nm a b y ↔ x ∈ nm y ∨ (y = a ∧ x = b) := by
  unfold addNeighbor
  by_cases hy : y = a
  · subst hy
    by_cases hb : b ∈ nm y
    · simp only [if_pos rfl, if_pos hb, true_and]
      exact ⟨Or.inl, fun h => h.elim id (fun e => e ▸ hb)⟩
    · simp [if_pos rfl, hb, List.mem_append]
  · simp [hy]

theorem addTriangleNeighbors_sym (nm : ℕ → List ℕ) (a b c : ℕ)
    (h : NeighborSym nm) : NeighborSym (addTriangleNeighbors nm a b c) := by
  intro x y hxy
  unfold addTriangleNeighbors at hxy ⊢
  simp only [mem_addNeighbor] at hxy ⊢
  have hs := h x y
  tauto

theorem buildTriNeighborMap_sym (tris : List (ℕ × ℕ × ℕ)) :
    NeighborSym (buildTriNeighborMap tris) := by
  unfold buildTriNeighborMap
  suffices h : ∀ nm, NeighborSym nm →
      NeighborSym (tris.foldl
        (fun nm t => addTriangleNeighbors nm t.1 t.2.1 t.2.2) nm) by
    exact h _ (fun a b hb => by simp at hb)
  induction tris with
  | nil => intro nm h; exact h
  | cons t rest ih =>
    intro nm h
    exact ih _ (addTriangleNeighbors_sym _ _ _ _ h)

theorem mem_buildProximityNeighbors [LinearOrderedField α]
    (pos : ℕ → V3 α) (count i j : ℕ) :
    j ∈ buildProximityNeighbors pos count i ↔
      i < count ∧ j < count ∧ j % max 1 (count / 100) = 0 ∧ j ≠ i ∧
        V3.dist2 (pos i) (pos j) < (3 / 10) ^ 2 := by
  unfold buildProximityNeighbors
  by_cases hi : i < count
  · simp only [hi, if_true, List.mem_filter, List.mem_range, decide_eq_true_eq]
    tauto
  · simp [hi]

/-- C8 (amended): the neighbor map built from triangle indices is always
symmetric; the proximity fallback is symmetric whenever the vertex count
is below 200 (so that its subsampling stride `max(1, ⌊count/100⌋)` is 1).
With 200 or more vertices the stride-subsampled scan is not symmetric. -/
theorem neighbor_map_symmetry :
    (∀ (α : Type) [_inst : LinearOrderedField α] (pos : ℕ → V3 α) (count : ℕ)
        (tris : List (ℕ × ℕ × ℕ)),
        NeighborSym (buildNeighborMap pos count (some tris))) ∧
      ∀ (α : Type) [_inst : LinearOrderedField α] (pos : ℕ → V3 α) (count : ℕ),
        count < 200 → NeighborSym (buildNeighborMap pos count none) := by
  constructor
  · intro α _ pos count tris
    exact buildTriNeighborMap_sym tris
  · intro α _ pos count hcount a b hb
    rw [show buildNeighborMap pos count none = buildProximityNeighbors pos count from rfl,
      mem_buildProximityNeighbors] at hb
    rw [show buildNeighborMap pos count none = buildProximityNeighbors pos count from rfl,
      mem_buildProximityNeighbors]
    have hstep : max 1 (count / 100) = 1 :=
      max_eq_left (Nat.le_of_lt_succ (Nat.div_lt_of_lt_mul (by omega)))
    obtain ⟨ha, hblt, _, hne, hd⟩ := hb
    exact ⟨hblt, ha, by rw [hstep]; exact Nat.mod_one a, hne.symm,
      V3.dist2_comm (pos a) (pos b) ▸ hd⟩

/-- Witness for C8's amended theorem: a concrete triangle-built map and a
concrete small proximity map, with the symmetry instantiated at explicit
index pairs. -/
theorem neighbor_map_symmetry_witness :
    ((1 : ℕ) ∈ buildNeighborMap densePos 3 (some [(0, 1, 2)]) 0 →
        (0 : ℕ) ∈ buildNeighborMap densePos 3 (some [(0, 1, 2)]) 1) ∧
      (150 : ℕ) < 200 ∧
      ((0 : ℕ) ∈ buildNeighborMap densePos 150 none 1 →
        (1 : ℕ) ∈ buildNeighborMap densePos 150 none 0) :=
  ⟨neighbor_map_symmetry.1 ℚ densePos 3 [(0, 1, 2)] 0 1, by norm_num,
    neighbor_map_symmetry.2 ℚ densePos 150 (by norm_num) 1 0⟩

/-- C8 counterexample: with 200 coincident vertices the proximity fallback
samples with stride 2, so vertex 0 (even) appears in vertex 1's neighbor
list but vertex 1 (odd) appears in nobody's — the map is not symmetric,
refuting the claim's "both ... and by the proximity fallback". -/
theorem proximity_neighbors_asymmetric :
    (0 : ℕ) ∈ buildNeighborMap densePos 200 none 1 ∧
      (1 : ℕ) ∉ buildNeighborMap densePos 200 none 0 := by
  have heq : buildNeighborMap densePos 200 none = buildProximityNeighbors densePos 200 :=
    rfl
  constructor
  · rw [heq, mem_buildProximityNeighbors]
    refine ⟨by norm_num, by norm_num, by norm_num, by norm_num, ?_⟩
    norm_num [densePos, V3.dist2, V3.norm2, V3.sub_x, V3.sub_y, V3.sub_z,
      V3.zero_x, V3.zero_y, V3.zero_z]
  · rw [heq, mem_buildProximityNeighbors]
    intro h
    have h3 : (1 : ℕ) % max 1 (200 / 100) = 0 := h.2.2.1
    norm_num at h3

/-- Branch equation: `ParticleExplosion.update` is a no-op when not
exploding. -/
theorem pexplosion_update_of_idle [LinearOrderedField α] (sinf : α → α)
    (delta : α) (s : PExplosion α) (h : s.isExploding = false) :
    PExplosion.update sinf delta s = s := by
  rw [PExplosion.update, if_neg]
  simp [h]

/-- C6: calling `explode()` while an explosion is already in progress
leaves the whole engine state — in particular the particle set and the
elapsed explosion timer — unchanged; and the completion signal fires
exactly once per explosion: an update tick fires it exactly when the
elapsed timer reaches the fall duration (leaving the exploding state), and
ticks outside an explosion change nothing. -/
theorem explode_while_exploding_guard [LinearOrderedField α]
    (sqrt sinf : α → α) (rnd : ℕ → α) (piv : α) (s : PExplosion α)
    (hs : s.isExploding = true) :
    PExplosion.explode sqrt rnd piv s = s ∧
      (∀ delta : α, (PExplosion.update sinf delta s).completionCount =
          s.completionCount +
            (if PExplosion.fallDurationC α ≤ s.explosionTimer + delta then 1 else 0) ∧
        ((PExplosion.update sinf delta s).isExploding =
          !decide (PExplosion.fallDurationC α ≤ s.explosionTimer + delta))) ∧
      ∀ (s' : PExplosion α) (delta : α), s'.isExploding = false →
        PExplosion.update sinf delta s' = s' := by
  refine ⟨?_, ?_, fun s' delta h => pexplosion_update_of_idle sinf delta s' h⟩
  · rw [PExplosion.explode, if_pos hs]
  · intro delta
    by_cases hdelta : PExplosion.fallDurationC α ≤ s.explosionTimer + delta
    · have he : PExplosion.update sinf delta s = PExplosion.finishExplosion
          { s with
              explosionTimer := s.explosionTimer + delta
              particles := s.particles.map (PExplosion.particleStep sinf delta
                (s.explosionTimer + delta)
                (if 5 / 2 < s.explosionTimer + delta then
                  min 1 ((s.explosionTimer + delta - 5 / 2) / (3 / 2)) else 0)) } := by
        rw [PExplosion.update, if_pos hs]
        exact if_pos hdelta
      rw [he, if_pos hdelta]
      exact ⟨rfl, by simp [hdelta, PExplosion.finishExplosion]⟩
    · have he : PExplosion.update sinf delta s =
          { s with
              explosionTimer := s.explosionTimer + delta
              particles := s.particles.map (PExplosion.particleStep sinf delta
                (s.explosionTimer + delta)
                (if 5 / 2 < s.explosionTimer + delta then
                  min 1 ((s.explosionTimer + delta - 5 / 2) / (3 / 2)) else 0)) } := by
        rw [PExplosion.update, if_pos hs]
        exact if_neg hdelta
      rw [he, if_neg hdelta]
      exact ⟨rfl, by simp [hdelta, hs]⟩

/-- Witness for C6 at a concrete exploding state. -/
theorem explode_while_exploding_guard_witness :
    pexExploding.isExploding = true ∧
      PExplosion.explode (id : ℚ → ℚ) (fun _ => 0) 3 pexExploding = pexExploding ∧
      (PExplosion.update (id : ℚ → ℚ) 4 pexExploding).completionCount =
        pexExploding.completionCount +
          (if PExplosion.fallDurationC ℚ ≤ pexExploding.explosionTimer + 4 then 1 else 0) :=
  ⟨rfl, (explode_while_exploding_guard id id (fun _ => 0) 3 pexExploding rfl).1,
    ((explode_while_exploding_guard id id (fun _ => 0) 3 pexExploding rfl).2.1 4).1⟩

theorem V3.ext' (a b : V3 α) (hx : a.x = b.x) (hy : a.y = b.y)
    (hz : a.z = b.z) : a = b := by
  cases a; cases b; cases hx; cases hy; cases hz; rfl

theorem V3.zero_add_left [LinearOrderedField α] (v : V3 α) : (0 : V3 α) + v = v :=
  V3.ext' _ _ (by rw [V3.add_x, V3.zero_x, zero_add])
    (by rw [V3.add_y, V3.zero_y, zero_add]) (by rw [V3.add_z, V3.zero_z, zero_add])

theorem V3.vlen_real_single (a : ℝ) :
    V3.vlen Real.sqrt ⟨a, 0, 0⟩ = |a| := by
  have h : a * a + 0 * 0 + 0 * 0 = a ^ 2 := by ring
  rw [V3.vlen, V3.norm2]
  simp only [h]
  exact Real.sqrt_sq_eq_abs a

theorem applyImpulse_vel_eq [LinearOrderedField α] (sqrt : α → α)
    (wp wd : V3 α) (force : α) (s : SoftBody α) (i : ℕ) :
    (SoftBody.applyImpulse sqrt wp wd force s).vertexVelocities i =
      if i < s.count then
        if V3.vlen sqrt (s.positions i - s.worldToLocal wp) < 4 / 5 then
          V3.clampLen sqrt (1 / 2) (s.vertexVelocities i +
            (force * (1 - V3.vlen sqrt (s.positions i - s.worldToLocal wp) / (4 / 5)) *
              (1 - V3.vlen sqrt (s.positions i - s.worldToLocal wp) / (4 / 5)) *
              (1 - V3.vlen sqrt (s.positions i - s.worldToLocal wp) / (4 / 5))) •
              V3.normalize sqrt (s.invWorldLinear wd))
        else s.vertexVelocities i
      else s.vertexVelocities i := rfl

/-- C7 (amended): a single `applyImpulse` of force `F` on a body with zero
pre-existing velocities gives each vertex at local distance `d < R = 0.8`
the velocity `(F * (1 - d/R)^3) • localDirection` *clamped to maximum
speed `0.5`* (so exact proportionality to `F * (1 - d/R)^3` is broken when
that product exceeds the cap), and leaves every vertex at `d ≥ R` with
exactly zero velocity. -/
theorem applyImpulse_falloff [LinearOrderedField α] (sqrt : α → α)
    (wp wd : V3 α) (force : α) (s : SoftBody α)
    (hvel : ∀ i, s.vertexVelocities i = 0) :
    ∀ i < s.count,
      (V3.vlen sqrt (s.positions i - s.worldToLocal wp) < 4 / 5 →
        (SoftBody.applyImpulse sqrt wp wd force s).vertexVelocities i =
          V3.clampLen sqrt (1 / 2)
            ((force * (1 - V3.vlen sqrt (s.positions i - s.worldToLocal wp) / (4 / 5)) ^ 3) •
              V3.normalize sqrt (s.invWorldLinear wd))) ∧
      (4 / 5 ≤ V3.vlen sqrt (s.positions i - s.worldToLocal wp) →
        (SoftBody.applyImpulse sqrt wp wd force s).vertexVelocities i = 0) := by
  intro i hi
  rw [applyImpulse_vel_eq, if_pos hi]
  constructor
  · intro hd
    rw [if_pos hd, hvel i, V3.zero_add_left]
    have hpow : force * (1 - V3.vlen sqrt (s.positions i - s.worldToLocal wp) / (4 / 5)) *
        (1 - V3.vlen sqrt (s.positions i - s.worldToLocal wp) / (4 / 5)) *
        (1 - V3.vlen sqrt (s.positions i - s.worldToLocal wp) / (4 / 5)) =
        force * (1 - V3.vlen sqrt (s.positions i - s.worldToLocal wp) / (4 / 5)) ^ 3 := by
      ring
    rw [hpow]
  · intro hd
    rw [if_neg (not_lt.mpr hd)]
    exact hvel i

/-- Witness for C7's amended theorem on a concrete one-vertex body with
zero velocities. -/
theorem applyImpulse_falloff_witness :
    (∀ i, sbSingleActive.vertexVelocities i = 0) ∧
      ∀ i < sbSingleActive.count,
        (V3.vlen id (sbSingleActive.positions i - sbSingleActive.worldToLocal 0) < 4 / 5 →
          (SoftBody.applyImpulse id 0 ⟨1, 0, 0⟩ 2 sbSingleActive).vertexVelocities i =
            V3.clampLen id (1 / 2)
              ((2 * (1 - V3.vlen id (sbSingleActive.positions i -
                  sbSingleActive.worldToLocal 0) / (4 / 5)) ^ 3) •
                V3.normalize id (sbSingleActive.invWorldLinear ⟨1, 0, 0⟩))) ∧
        (4 / 5 ≤ V3.vlen id (sbSingleActive.positions i - sbSingleActive.worldToLocal 0) →
          (SoftBody.applyImpulse id 0 ⟨1, 0, 0⟩ 2 sbSingleActive).vertexVelocities i = 0) :=
  ⟨fun _ => rfl, applyImpulse_falloff id 0 ⟨1, 0, 0⟩ 2 sbSingleActive (fun _ => rfl)⟩

theorem V3.normalize_single (a : ℝ) (ha : 0 < a) :
    V3.normalize Real.sqrt ⟨a, 0, 0⟩ = ⟨1, 0, 0⟩ := by
  unfold V3.normalize
  rw [V3.vlen_real_single, abs_of_pos ha, if_neg (ne_of_gt ha)]
  exact V3.ext' _ _ (by rw [V3.smul_x]; exact one_div_mul_cancel (ne_of_gt ha))
    (by rw [V3.smul_y]; exact mul_zero _) (by rw [V3.smul_z]; exact mul_zero _)

theorem V3.clampLen_single_big (cap a : ℝ) (hcap : 0 ≤ cap) (ha : cap < a) :
    V3.clampLen Real.sqrt cap ⟨a, 0, 0⟩ = ⟨cap, 0, 0⟩ := by
  unfold V3.clampLen
  have hapos : 0 < a := lt_of_le_of_lt hcap ha
  rw [V3.vlen_real_single, abs_of_pos hapos, if_pos ha, V3.normalize_single a hapos]
  exact V3.ext' _ _ (by rw [V3.smul_x]; exact mul_one _)
    (by rw [V3.smul_y]; exact mul_zero _) (by rw [V3.smul_z]; exact mul_zero _)

theorem V3.clampLen_single_small (cap a : ℝ) (ha : |a| ≤ cap) :
    V3.clampLen Real.sqrt cap ⟨a, 0, 0⟩ = ⟨a, 0, 0⟩ := by
  unfold V3.clampLen
  rw [V3.vlen_real_single, if_neg (not_lt.mpr ha)]

theorem sbImpulse_dist0 :
    V3.vlen Real.sqrt (sbImpulse.positions 0 - sbImpulse.worldToLocal (0 : V3 ℝ)) = 0 := by
  have hsub : sbImpulse.positions 0 - sbImpulse.worldToLocal (0 : V3 ℝ) =
      (⟨0, 0, 0⟩ : V3 ℝ) := by
    refine V3.ext' _ _ ?_ ?_ ?_ <;>
      simp [sbImpulse, SoftBody.mk', cexPos, V3.sub_x, V3.sub_y, V3.sub_z,
        V3.zero_x, V3.zero_y, V3.zero_z]
  rw [hsub, V3.vlen_real_single, abs_zero]

theorem sbImpulse_dist1 :
    V3.vlen Real.sqrt (sbImpulse.positions 1 - sbImpulse.worldToLocal (0 : V3 ℝ)) =
      2 / 5 := by
  have hsub : sbImpulse.positions 1 - sbImpulse.worldToLocal (0 : V3 ℝ) =
      (⟨2 / 5, 0, 0⟩ : V3 ℝ) := by
    refine V3.ext' _ _ ?_ ?_ ?_ <;>
      simp [sbImpulse, SoftBody.mk', cexPos, V3.sub_x, V3.sub_y, V3.sub_z,
        V3.zero_x, V3.zero_y, V3.zero_z]
  rw [hsub, V3.vlen_real_single]
  norm_num

theorem sbImpulse_vel0 :
    (SoftBody.applyImpulse Real.sqrt 0 ⟨1, 0, 0⟩ 2 sbImpulse).vertexVelocities 0 =
      (⟨1 / 2, 0, 0⟩ : V3 ℝ) := by
  rw [applyImpulse_vel_eq, if_pos (show (0 : ℕ) < sbImpulse.count by norm_num [sbImpulse, SoftBody.mk'])]
  rw [if_pos (by rw [sbImpulse_dist0]; norm_num)]
  rw [sbImpulse_dist0]
  rw [show sbImpulse.vertexVelocities 0 = (0 : V3 ℝ) from rfl, V3.zero_add_left]
  rw [show sbImpulse.invWorldLinear ⟨(1 : ℝ), 0, 0⟩ = ⟨1, 0, 0⟩ from rfl]
  rw [V3.normalize_single 1 one_pos]
  rw [show (2 * (1 - (0 : ℝ) / (4 / 5)) * (1 - 0 / (4 / 5)) * (1 - 0 / (4 / 5))) = 2 by
    norm_num]
  rw [show ((2 : ℝ) • (⟨1, 0, 0⟩ : V3 ℝ)) = ⟨2, 0, 0⟩ from
    V3.ext' _ _ (by rw [V3.smul_x]; norm_num) (by rw [V3.smul_y]; norm_num)
      (by rw [V3.smul_z]; norm_num)]
  exact V3.clampLen_single_big (1 / 2) 2 (by norm_num) (by norm_num)

theorem sbImpulse_vel1 :
    (SoftBody.applyImpulse Real.sqrt 0 ⟨1, 0, 0⟩ 2 sbImpulse).vertexVelocities 1 =
      (⟨1 / 4, 0, 0⟩ : V3 ℝ) := by
  rw [applyImpulse_vel_eq, if_pos (show (1 : ℕ) < sbImpulse.count by norm_num [sbImpulse, SoftBody.mk'])]
  rw [if_pos (by rw [sbImpulse_dist1]; norm_num)]
  rw [sbImpulse_dist1]
  rw [show sbImpulse.vertexVelocities 1 = (0 : V3 ℝ) from rfl, V3.zero_add_left]
  rw [show sbImpulse.invWorldLinear ⟨(1 : ℝ), 0, 0⟩ = ⟨1, 0, 0⟩ from rfl]
  rw [V3.normalize_single 1 one_pos]
  rw [show (2 * (1 - (2 : ℝ) / 5 / (4 / 5)) * (1 - 2 / 5 / (4 / 5)) *
      (1 - 2 / 5 / (4 / 5))) = 1 / 4 by norm_num]
  rw [show ((1 / 4 : ℝ) • (⟨1, 0, 0⟩ : V3 ℝ)) = ⟨1 / 4, 0, 0⟩ from
    V3.ext' _ _ (by rw [V3.smul_x]; norm_num) (by rw [V3.smul_y]; norm_num)
      (by rw [V3.smul_z]; norm_num)]
  exact V3.clampLen_single_small (1 / 2) (1 / 4)
    (by rw [abs_of_pos (by norm_num : (0 : ℝ) < 1 / 4)]; norm_num)

/-- C7 counterexample: on a two-vertex body (distances 0 and 0.4 from the
impact point, zero pre-existing velocity, unit impulse direction, force
`F = 2`) the resulting speeds are 0.5 (clamped) and 0.25, so no constant
of proportionality `k` with speed `= k * F * (1 - d/R)^3` exists — the
velocity-magnitude clamp at 0.5 breaks the claimed proportionality. -/
theorem applyImpulse_not_proportional :
    ¬ ∃ k : ℝ, ∀ i < sbImpulse.count,
        V3.vlen Real.sqrt (sbImpulse.positions i - sbImpulse.worldToLocal 0) < 4 / 5 →
          V3.vlen Real.sqrt
              ((SoftBody.applyImpulse Real.sqrt 0 ⟨1, 0, 0⟩ 2 sbImpulse).vertexVelocities i) =
            k * 2 *
              (1 - V3.vlen Real.sqrt (sbImpulse.positions i - sbImpulse.worldToLocal 0) /
                (4 / 5)) ^ 3 := by
  rintro ⟨k, hk⟩
  have h0 := hk 0 (show (0 : ℕ) < sbImpulse.count by norm_num [sbImpulse, SoftBody.mk'])
    (by rw [sbImpulse_dist0]; norm_num)
  have h1 := hk 1 (show (1 : ℕ) < sbImpulse.count by norm_num [sbImpulse, SoftBody.mk'])
    (by rw [sbImpulse_dist1]; norm_num)
  rw [sbImpulse_vel0, sbImpulse_dist0, V3.vlen_real_single] at h0
  rw [sbImpulse_vel1, sbImpulse_dist1, V3.vlen_real_single] at h1
  have e0 : (1 : ℝ) / 2 = k * 2 := by
    rw [abs_of_pos (by norm_num : (0 : ℝ) < 1 / 2)] at h0
    calc (1 : ℝ) / 2 = k * 2 * (1 - 0 / (4 / 5)) ^ 3 := h0
    _ = k * 2 := by norm_num
  have e1 : (1 : ℝ) / 4 = k * 2 * (1 / 8) := by
    rw [abs_of_pos (by norm_num : (0 : ℝ) < 1 / 4)] at h1
    calc (1 : ℝ) / 4 = k * 2 * (1 - 2 / 5 / (4 / 5)) ^ 3 := h1
    _ = k * 2 * (1 / 8) := by norm_num
  have hk1 : k = 1 / 4 := by linarith
  rw [hk1] at e1
  norm_num at e1

theorem V3.norm2_smul [LinearOrderedField α] (c : α) (v : V3 α) :
    V3.norm2 (c • v) = c ^ 2 * V3.norm2 v := by
  simp only [V3.norm2, V3.smul_x, V3.smul_y, V3.smul_z]
  ring

theorem V3.vlen_real_smul (c : ℝ) (v : V3 ℝ) :
    V3.vlen Real.sqrt (c • v) = |c| * V3.vlen Real.sqrt v := by
  rw [V3.vlen, V3.vlen, V3.norm2_smul, Real.sqrt_mul (sq_nonneg c), Real.sqrt_sq_eq_abs]

theorem V3.vlen_real_nonneg (v : V3 ℝ) : 0 ≤ V3.vlen Real.sqrt v :=
  Real.sqrt_nonneg _

theorem V3.add_sub_cancel_left' [LinearOrderedField α] (o x : V3 α) :
    (o + x) - o = x :=
  V3.ext' _ _ (by rw [V3.sub_x, V3.add_x]; ring) (by rw [V3.sub_y, V3.add_y]; ring)
    (by rw [V3.sub_z, V3.add_z]; ring)

theorem V3.sub_self' [LinearOrderedField α] (v : V3 α) : v - v = (0 : V3 α) :=
  V3.ext' _ _ (by rw [V3.sub_x, V3.zero_x]; ring) (by rw [V3.sub_y, V3.zero_y]; ring)
    (by rw [V3.sub_z, V3.zero_z]; ring)

theorem V3.vlen_real_zero : V3.vlen Real.sqrt (0 : V3 ℝ) = 0 := by
  have h : V3.norm2 (0 : V3 ℝ) = 0 := by
    simp [V3.norm2, V3.zero_x, V3.zero_y, V3.zero_z]
  rw [V3.vlen, h, Real.sqrt_zero]

/-- The normalize step of the displacement clamp has length one on a
vector of positive length. -/
theorem V3.vlen_real_normalize (v : V3 ℝ) (h : 0 < V3.vlen Real.sqrt v) :
    V3.vlen Real.sqrt (V3.normalize Real.sqrt v) = 1 := by
  rw [V3.normalize, if_neg (ne_of_gt h), V3.vlen_real_smul,
    abs_of_pos (by positivity : (0 : ℝ) < 1 / V3.vlen Real.sqrt v)]
  field_simp

/-- After the position constraint, the displacement from the rest position
is at most `maxDisplacement` — the clamped branch lands exactly on the cap
and the other branch was within it already. -/
theorem constrainDisp_caps (q o w : V3 ℝ) :
    V3.vlen Real.sqrt ((SoftBody.constrainDisp Real.sqrt q o w).1 - o) ≤
      SoftBody.maxDisplacementC ℝ := by
  simp only [SoftBody.constrainDisp]
  split
  · next hgt =>
    have hpos : 0 < V3.vlen Real.sqrt (q - o) :=
      lt_of_le_of_lt (by norm_num [SoftBody.maxDisplacementC]) hgt
    rw [V3.add_sub_cancel_left', V3.vlen_real_smul, V3.vlen_real_normalize _ hpos,
      mul_one, abs_of_pos (by norm_num [SoftBody.maxDisplacementC])]
  · next hle => exact not_lt.mp hle

/-- The integration step never touches the bookkeeping fields. -/
theorem integStep_frame [LinearOrderedField α] (sqrt : α → α) (delta : α)
    (s : SoftBody α) (P : List ℕ) (i : ℕ) :
    (SoftBody.integStep sqrt delta s P i).1.count = s.count ∧
      (SoftBody.integStep sqrt delta s P i).1.originalPositions = s.originalPositions ∧
      (SoftBody.integStep sqrt delta s P i).1.vertexGroups = s.vertexGroups ∧
      (SoftBody.integStep sqrt delta s P i).1.neighbors = s.neighbors ∧
      (SoftBody.integStep sqrt delta s P i).1.vertexForces = s.vertexForces ∧
      (SoftBody.integStep sqrt delta s P i).1.initialized = s.initialized ∧
      (SoftBody.integStep sqrt delta s P i).1.isActive = s.isActive ∧
      (SoftBody.integStep sqrt delta s P i).1.activityTimer = s.activityTimer := by
  simp only [SoftBody.integStep]
  split
  · split
    · exact ⟨rfl, rfl, rfl, rfl, rfl, rfl, rfl, rfl⟩
    · exact ⟨rfl, rfl, rfl, rfl, rfl, rfl, rfl, rfl⟩
  · exact ⟨rfl, rfl, rfl, rfl, rfl, rfl, rfl, rfl⟩

/-- Branch equation: a group whose representative was already processed is
skipped. -/
theorem integStep_of_skip [LinearOrderedField α] (sqrt : α → α) (delta : α)
    (s : SoftBody α) (P : List ℕ) (i : ℕ)
    (h : 1 < (s.vertexGroups i).length)
    (hmem : (s.vertexGroups i).headI ∈ P) :
    SoftBody.integStep sqrt delta s P i = (s, P) := by
  simp only [SoftBody.integStep]
  rw [if_pos h, if_pos hmem]

/-- Branch shape: processing a not-yet-processed group writes one shared
constrained position (fanned out with the per-member rest offset) and one
shared velocity to exactly the group's members, and records the
representative. -/
theorem integStep_of_group [LinearOrderedField α] (sqrt : α → α) (delta : α)
    (s : SoftBody α) (P : List ℕ) (i : ℕ)
    (h : 1 < (s.vertexGroups i).length)
    (hmem : (s.vertexGroups i).headI ∉ P) :
    ∃ np v,
      (∃ q w, np = (SoftBody.constrainDisp sqrt q
        (s.originalPositions (s.vertexGroups i).headI) w).1) ∧
      (SoftBody.integStep sqrt delta s P i).1.positions = (fun k =>
        if k ∈ s.vertexGroups i then
          np + (s.originalPositions k - s.originalPositions (s.vertexGroups i).headI)
        else s.positions k) ∧
      (SoftBody.integStep sqrt delta s P i).1.vertexVelocities = (fun k =>
        if k ∈ s.vertexGroups i then v else s.vertexVelocities k) ∧
      (SoftBody.integStep sqrt delta s P i).2 = (s.vertexGroups i).headI :: P := by
  simp only [SoftBody.integStep]
  rw [if_pos h, if_neg hmem]
  exact ⟨_, _, ⟨_, _, rfl⟩, rfl, rfl, rfl⟩

/-- Branch shape: a singleton-group vertex gets a constrained position and
a velocity written to itself only. -/
theorem integStep_of_single [LinearOrderedField α] (sqrt : α → α) (delta : α)
    (s : SoftBody α) (P : List ℕ) (i : ℕ)
    (h : ¬ 1 < (s.vertexGroups i).length) :
    ∃ np v,
      (∃ q w, np = (SoftBody.constrainDisp sqrt q (s.originalPositions i) w).1) ∧
      (SoftBody.integStep sqrt delta s P i).1.positions = (fun k =>
        if k = i then np else s.positions k) ∧
      (SoftBody.integStep sqrt delta s P i).1.vertexVelocities = (fun k =>
        if k = i then v else s.vertexVelocities k) ∧
      (SoftBody.integStep sqrt delta s P i).2 = P := by
  simp only [SoftBody.integStep]
  rw [if_neg h]
  exact ⟨_, _, ⟨_, _, rfl⟩, rfl, rfl, rfl⟩

/-- The whole integration loop never touches the bookkeeping fields. -/
theorem integrate_frame [LinearOrderedField α] (sqrt : α → α) (delta : α)
    (s : SoftBody α) :
    (SoftBody.integrate sqrt delta s).count = s.count ∧
      (SoftBody.integrate sqrt delta s).originalPositions = s.originalPositions ∧
      (SoftBody.integrate sqrt delta s).vertexGroups = s.vertexGroups ∧
      (SoftBody.integrate sqrt delta s).neighbors = s.neighbors ∧
      (SoftBody.integrate sqrt delta s).vertexForces = s.vertexForces ∧
      (SoftBody.integrate sqrt delta s).initialized = s.initialized ∧
      (SoftBody.integrate sqrt delta s).isActive = s.isActive ∧
      (SoftBody.integrate sqrt delta s).activityTimer = s.activityTimer := by
  unfold SoftBody.integrate
  suffices h : ∀ (l : List ℕ) (t : SoftBody α) (P : List ℕ),
      ((l.foldl (fun p i => SoftBody.integStep sqrt delta p.1 p.2 i) (t, P)).1.count
          = t.count ∧
        (l.foldl (fun p i => SoftBody.integStep sqrt delta p.1 p.2 i) (t, P)).1.originalPositions
          = t.originalPositions ∧
        (l.foldl (fun p i => SoftBody.integStep sqrt delta p.1 p.2 i) (t, P)).1.vertexGroups
          = t.vertexGroups ∧
        (l.foldl (fun p i => SoftBody.integStep sqrt delta p.1 p.2 i) (t, P)).1.neighbors
          = t.neighbors ∧
        (l.foldl (fun p i => SoftBody.integStep sqrt delta p.1 p.2 i) (t, P)).1.vertexForces
          = t.vertexForces ∧
        (l.foldl (fun p i => SoftBody.integStep sqrt delta p.1 p.2 i) (t, P)).1.initialized
          = t.initialized ∧
        (l.foldl (fun p i => SoftBody.integStep sqrt delta p.1 p.2 i) (t, P)).1.isActive
          = t.isActive ∧
        (l.foldl (fun p i => SoftBody.integStep sqrt delta p.1 p.2 i) (t, P)).1.activityTimer
          = t.activityTimer) by
    exact h (List.range s.count) s []
  intro l
  induction l with
  | nil => intro t P; exact ⟨rfl, rfl, rfl, rfl, rfl, rfl, rfl, rfl⟩
  | cons i l ih =>
    intro t P
    simp only [List.foldl_cons]
    have hstep := integStep_frame sqrt delta t P i
    have hind := ih (SoftBody.integStep sqrt delta t P i).1
      (SoftBody.integStep sqrt delta t P i).2
    exact ⟨hind.1.trans hstep.1, hind.2.1.trans hstep.2.1,
      hind.2.2.1.trans hstep.2.2.1, hind.2.2.2.1.trans hstep.2.2.2.1,
      hind.2.2.2.2.1.trans hstep.2.2.2.2.1,
      hind.2.2.2.2.2.1.trans hstep.2.2.2.2.2.1,
      hind.2.2.2.2.2.2.1.trans hstep.2.2.2.2.2.2.1,
      hind.2.2.2.2.2.2.2.trans hstep.2.2.2.2.2.2.2⟩

/-- Every position the integration step writes is displacement-capped;
unwritten positions are untouched. -/
theorem integStep_disp (delta : ℝ) (s : SoftBody ℝ) (P : List ℕ) (i k : ℕ) :
    (SoftBody.integStep Real.sqrt delta s P i).1.positions k = s.positions k ∨
      V3.vlen Real.sqrt ((SoftBody.integStep Real.sqrt delta s P i).1.positions k -
        s.originalPositions k) ≤ SoftBody.maxDisplacementC ℝ := by
  by_cases h : 1 < (s.vertexGroups i).length
  · by_cases hmem : (s.vertexGroups i).headI ∈ P
    · left
      rw [integStep_of_skip Real.sqrt delta s P i h hmem]
    · obtain ⟨np, v, ⟨q, w, hnp⟩, hpos, _, _⟩ :=
        integStep_of_group Real.sqrt delta s P i h hmem
      rw [hpos]
      by_cases hk : k ∈ s.vertexGroups i
      · right
        simp only [if_pos hk]
        have hcollapse :
            (np + (s.originalPositions k -
                s.originalPositions (s.vertexGroups i).headI)) -
              s.originalPositions k =
            np - s.originalPositions (s.vertexGroups i).headI :=
          V3.ext' _ _
            (by simp only [V3.sub_x, V3.add_x]; ring)
            (by simp only [V3.sub_y, V3.add_y]; ring)
            (by simp only [V3.sub_z, V3.add_z]; ring)
        rw [hcollapse, hnp]
        exact constrainDisp_caps q _ w
      · left
        simp only [if_neg hk]
  · obtain ⟨np, v, ⟨q, w, hnp⟩, hpos, _, _⟩ :=
      integStep_of_single Real.sqrt delta s P i h
    rw [hpos]
    by_cases hk : k = i
    · right
      simp only [if_pos hk]
      rw [hk, hnp]
      exact constrainDisp_caps q _ w
    · left
      simp only [if_neg hk]

/-- Every position after the whole integration loop is either untouched or
displacement-capped. -/
theorem integrate_disp (delta : ℝ) (s : SoftBody ℝ) (k : ℕ) :
    (SoftBody.integrate Real.sqrt delta s).positions k = s.positions k ∨
      V3.vlen Real.sqrt ((SoftBody.integrate Real.sqrt delta s).positions k -
        s.originalPositions k) ≤ SoftBody.maxDisplacementC ℝ := by
  unfold SoftBody.integrate
  suffices h : ∀ (l : List ℕ) (t : SoftBody ℝ) (P : List ℕ),
      t.originalPositions = s.originalPositions →
      ((l.foldl (fun p i => SoftBody.integStep Real.sqrt delta p.1 p.2 i) (t, P)).1.positions k
          = t.positions k ∨
        V3.vlen Real.sqrt
          ((l.foldl (fun p i => SoftBody.integStep Real.sqrt delta p.1 p.2 i) (t, P)).1.positions k -
            s.originalPositions k) ≤ SoftBody.maxDisplacementC ℝ) by
    exact h (List.range s.count) s [] rfl
  intro l
  induction l with
  | nil =>
    intro t P _
    left
    rfl
  | cons i l ih =>
    intro t P horig
    simp only [List.foldl_cons]
    have horig' : (SoftBody.integStep Real.sqrt delta t P i).1.originalPositions =
        s.originalPositions :=
      (integStep_frame Real.sqrt delta t P i).2.1.trans horig
    rcases ih (SoftBody.integStep Real.sqrt delta t P i).1
      (SoftBody.integStep Real.sqrt delta t P i).2 horig' with h1 | h2
    · rcases integStep_disp delta t P i k with hs1 | hs2
      · left
        rw [h1, hs1]
      · right
        rw [h1]
        rw [horig] at hs2
        exact hs2
    · right
      exact h2

/-- C4: in every soft-body state reachable through the API (construction,
impulses, update ticks) — in particular after every update tick — the
Euclidean distance between each vertex's current position and its stored
rest position is at most the configured `maxDisplacement` cap (0.15). -/
theorem displacement_within_cap (s : SoftBody ℝ) (h : Reachable s) :
    ∀ i < s.count,
      V3.vlen Real.sqrt (s.positions i - s.originalPositions i) ≤
        SoftBody.maxDisplacementC ℝ := by
  induction h with
  | init count pos indices w2l invw =>
    intro i _
    simp only [SoftBody.mk']
    rw [V3.sub_self', V3.vlen_real_zero]
    norm_num [SoftBody.maxDisplacementC]
  | impulse s' wp wd f hs ih =>
    exact fun i hi => ih i hi
  | tick s' delta hs ih =>
    intro i hi
    by_cases hact : s'.initialized = true ∧ s'.isActive = true
    · by_cases hexp : s'.activityTimer - delta ≤ 0
      · rw [update_of_expired Real.sqrt delta s' hact.1 hact.2 hexp] at hi ⊢
        simp only [SoftBody.resetToOriginal] at hi ⊢
        rw [if_pos hi, V3.sub_self', V3.vlen_real_zero]
        norm_num [SoftBody.maxDisplacementC]
      · push_neg at hexp
        rw [update_of_running Real.sqrt delta s' hact.1 hact.2 hexp] at hi ⊢
        rw [(integrate_frame Real.sqrt delta _).2.1]
        rcases integrate_disp delta
            (SoftBody.applyPropagation (SoftBody.applySpringForces
              (SoftBody.resetForces
                { s' with activityTimer := s'.activityTimer - delta }))) i with h1 | h2
        · rw [h1]
          have hi' : i < s'.count := by
            rw [(integrate_frame Real.sqrt delta _).1] at hi
            exact hi
          exact ih i hi'
        · exact h2
    · rw [update_of_idle Real.sqrt delta s' hact] at hi ⊢
      exact ih i hi

/-- Witness for C4: a freshly constructed one-vertex body is reachable and
satisfies the displacement cap. -/
theorem displacement_within_cap_witness :
    Reachable (SoftBody.mk' 1 (fun _ => 0) none id id) ∧
      ∀ i < (SoftBody.mk' 1 (fun _ => (0 : V3 ℝ)) none id id).count,
        V3.vlen Real.sqrt
            ((SoftBody.mk' 1 (fun _ => (0 : V3 ℝ)) none id id).positions i -
              (SoftBody.mk' 1 (fun _ => (0 : V3 ℝ)) none id id).originalPositions i) ≤
          SoftBody.maxDisplacementC ℝ :=
  ⟨Reachable.init 1 (fun _ => 0) none id id,
    displacement_within_cap _ (Reachable.init 1 (fun _ => 0) none id id)⟩

theorem headI_mem_of_ne_nil {l : List ℕ} (h : l ≠ []) : l.headI ∈ l := by
  cases l with
  | nil => exact absurd rfl h
  | cons a t => exact List.mem_cons_self a t

/-- The vertex groups built at initialization satisfy the partition
property. -/
theorem buildVertexGroups_wf [LinearOrderedField α] [FloorRing α]
    (pos : ℕ → V3 α) (count : ℕ) :
    GroupsWF (buildVertexGroups pos count) count := by
  intro i hi
  constructor
  · rw [buildVertexGroups_eq]
    split
    · exact (mem_keyBucket pos count _ i).mpr ⟨hi, rfl⟩
    · simp
  · intro j hj
    rw [buildVertexGroups_eq] at hj
    by_cases hlen : 1 < (keyBucket pos count (posKey (pos i))).length
    · rw [if_pos hlen] at hj
      obtain ⟨hjc, hjk⟩ := (mem_keyBucket pos count _ j).mp hj
      refine ⟨hjc, ?_⟩
      rw [buildVertexGroups_eq, buildVertexGroups_eq, hjk, if_pos hlen, if_pos hlen]
    · rw [if_neg hlen] at hj
      simp only [List.mem_singleton] at hj
      subst hj
      exact ⟨hi, rfl⟩

/-- One integration step preserves the fanout invariant, covers the group
of the index it visits, and only grows the processed set. -/
theorem integStep_fanout_inv [LinearOrderedField α] (sqrt : α → α) (delta : α)
    (s t : SoftBody α) (P : List ℕ) (i : ℕ)
    (hwf : GroupsWF s.vertexGroups s.count)
    (hinv : FanoutInv s t P) (hi : i < s.count) :
    FanoutInv s (SoftBody.integStep sqrt delta t P i).1
        (SoftBody.integStep sqrt delta t P i).2 ∧
      (1 < (s.vertexGroups i).length →
        (s.vertexGroups i).headI ∈ (SoftBody.integStep sqrt delta t P i).2) ∧
      ∀ p ∈ P, p ∈ (SoftBody.integStep sqrt delta t P i).2 := by
  obtain ⟨hg, ho, hc, hP⟩ := hinv
  have hgi : t.vertexGroups i = s.vertexGroups i := by rw [hg]
  by_cases hlen : 1 < (s.vertexGroups i).length
  · have hne : s.vertexGroups i ≠ [] := by
      intro he
      rw [he] at hlen
      simp at hlen
    have hreps : (s.vertexGroups i).headI ∈ s.vertexGroups i := headI_mem_of_ne_nil hne
    have hrepwf := (hwf i hi).2 _ hreps
    by_cases hmem : (s.vertexGroups i).headI ∈ P
    · rw [integStep_of_skip sqrt delta t P i (by rw [hgi]; exact hlen)
        (by rw [hgi]; exact hmem)]
      exact ⟨⟨hg, ho, hc, hP⟩, fun _ => hmem, fun p hp => hp⟩
    · obtain ⟨np, v, _, hpos, hvel, hsnd⟩ :=
        integStep_of_group sqrt delta t P i (by rw [hgi]; exact hlen)
          (by rw [hgi]; exact hmem)
      rw [hgi] at hpos hvel hsnd
      rw [ho] at hpos
      have hframe := integStep_frame sqrt delta t P i
      refine ⟨⟨hframe.2.2.1.trans hg, hframe.2.1.trans ho, hframe.1.trans hc, ?_⟩,
        fun _ => by rw [hsnd]; exact List.mem_cons_self _ _,
        fun p hp => by rw [hsnd]; exact List.mem_cons_of_mem _ hp⟩
      intro rep' hrep'
      rw [hsnd] at hrep'
      rcases List.mem_cons.mp hrep' with hrepeq | hrepP
      · subst hrepeq
        refine ⟨hrepwf.1, by rw [hrepwf.2]; exact hlen, by rw [hrepwf.2], np, v, ?_⟩
        intro j hj
        rw [hrepwf.2] at hj
        rw [hpos, hvel]
        simp only [if_pos hj]
        trivial
      · obtain ⟨h1, h2, h3, np₀, v₀, hfan⟩ := hP rep' hrepP
        refine ⟨h1, h2, h3, np₀, v₀, ?_⟩
        intro j hj
        have hji : j ∉ s.vertexGroups i := by
          intro hji
          have e1 := (hwf rep' h1).2 j hj
          have e2 := (hwf i hi).2 j hji
          have hgeq : s.vertexGroups rep' = s.vertexGroups i := e1.2.symm.trans e2.2
          apply hmem
          rw [← hgeq, ← h3]
          exact hrepP
        rw [hpos, hvel]
        simp only [if_neg hji]
        exact hfan j hj
  · obtain ⟨np, v, _, hpos, hvel, hsnd⟩ :=
      integStep_of_single sqrt delta t P i (by rw [hgi]; exact hlen)
    have hframe := integStep_frame sqrt delta t P i
    rw [hsnd]
    refine ⟨⟨hframe.2.2.1.trans hg, hframe.2.1.trans ho, hframe.1.trans hc, ?_⟩,
      fun habs => absurd habs hlen, fun p hp => hp⟩
    intro rep' hrepP
    obtain ⟨h1, h2, h3, np₀, v₀, hfan⟩ := hP rep' hrepP
    refine ⟨h1, h2, h3, np₀, v₀, ?_⟩
    intro j hj
    have hji : j ≠ i := by
      intro he
      subst he
      have e1 := (hwf rep' h1).2 j hj
      rw [e1.2] at hlen
      exact hlen h2
    rw [hpos, hvel]
    simp only [if_neg hji]
    exact hfan j hj

/-- After the whole integration loop, every group with more than one
member has received one shared position (fanned out with the per-member
rest offset) and one shared velocity. -/
theorem integrate_fanout [LinearOrderedField α] (sqrt : α → α) (delta : α)
    (s : SoftBody α) (hwf : GroupsWF s.vertexGroups s.count) :
    ∀ i < s.count, 1 < (s.vertexGroups i).length →
      ∃ np v, ∀ j ∈ s.vertexGroups i,
        (SoftBody.integrate sqrt delta s).positions j =
          np + (s.originalPositions j - s.originalPositions (s.vertexGroups i).headI) ∧
        (SoftBody.integrate sqrt delta s).vertexVelocities j = v := by
  unfold SoftBody.integrate
  suffices h : ∀ (l : List ℕ) (t : SoftBody α) (P : List ℕ),
      (∀ x ∈ l, x < s.count) → FanoutInv s t P →
      FanoutInv s
          (l.foldl (fun p j => SoftBody.integStep sqrt delta p.1 p.2 j) (t, P)).1
          (l.foldl (fun p j => SoftBody.integStep sqrt delta p.1 p.2 j) (t, P)).2 ∧
        (∀ x ∈ l, 1 < (s.vertexGroups x).length →
          (s.vertexGroups x).headI ∈
            (l.foldl (fun p j => SoftBody.integStep sqrt delta p.1 p.2 j) (t, P)).2) ∧
        ∀ p ∈ P,
          p ∈ (l.foldl (fun p j => SoftBody.integStep sqrt delta p.1 p.2 j) (t, P)).2 by
    intro i hi hmulti
    have hbase : FanoutInv s s [] :=
      ⟨rfl, rfl, rfl, fun rep hrep => absurd hrep (List.not_mem_nil rep)⟩
    obtain ⟨hfinal, hcov, _⟩ := h (List.range s.count) s []
      (fun x hx => List.mem_range.mp hx) hbase
    have hrepP := hcov i (List.mem_range.mpr hi) hmulti
    obtain ⟨_, _, _, hclause⟩ := hfinal
    obtain ⟨hn, hml, hh, np, v, hfan⟩ := hclause _ hrepP
    have hne : s.vertexGroups i ≠ [] := by
      intro he
      rw [he] at hmulti
      simp at hmulti
    have hgg : s.vertexGroups ((s.vertexGroups i).headI) = s.vertexGroups i :=
      ((hwf i hi).2 _ (headI_mem_of_ne_nil hne)).2
    rw [hgg] at hfan
    exact ⟨np, v, hfan⟩
  intro l
  induction l with
  | nil =>
    intro t P _ hinv
    exact ⟨hinv, by simp, fun p hp => hp⟩
  | cons x l ih =>
    intro t P hl hinv
    simp only [List.foldl_cons]
    have hx : x < s.count := hl x (List.mem_cons_self _ _)
    obtain ⟨hinv', hcovx, hmono⟩ := integStep_fanout_inv sqrt delta s t P x hwf hinv hx
    obtain ⟨hfinal, hcov, hmono'⟩ := ih (SoftBody.integStep sqrt delta t P x).1
      (SoftBody.integStep sqrt delta t P x).2
      (fun y hy => hl y (List.mem_cons_of_mem _ hy)) hinv'
    refine ⟨hfinal, fun y hy hml => ?_, fun p hp => hmono' p (hmono p hp)⟩
    rcases List.mem_cons.mp hy with rfl | hy'
    · exact hmono' _ (hcovx hml)
    · exact hcov y hy' hml

/-- C3 (amended): after an update tick on an initialized, active soft body
whose vertex groups were built at initialization from the rest positions,
every member of a vertex group has a velocity identical to the
representative's, and a position equal to the representative's plus the
member's constant rest-position offset — so positions are identical
exactly when the grouped vertices share the same rest position (grouped
vertices may differ within the quantization tolerance). -/
theorem update_group_members_sync [LinearOrderedField α] [FloorRing α]
    (sqrt : α → α) (delta : α) (s : SoftBody α)
    (hg : s.vertexGroups = buildVertexGroups s.originalPositions s.count)
    (hinit : s.initialized = true) (hact : s.isActive = true) :
    ∀ i < s.count, ∀ j ∈ s.vertexGroups i,
      (SoftBody.update sqrt delta s).vertexVelocities j =
          (SoftBody.update sqrt delta s).vertexVelocities ((s.vertexGroups i).headI) ∧
        (SoftBody.update sqrt delta s).positions j -
            (SoftBody.update sqrt delta s).positions ((s.vertexGroups i).headI) =
          s.originalPositions j - s.originalPositions ((s.vertexGroups i).headI) := by
  have hwf : GroupsWF s.vertexGroups s.count := by
    rw [hg]
    exact buildVertexGroups_wf _ _
  intro i hi j hj
  have hjlt : j < s.count := ((hwf i hi).2 j hj).1
  have hne : s.vertexGroups i ≠ [] := by
    intro he
    rw [he] at hj
    exact (List.not_mem_nil j) hj
  have hrep : (s.vertexGroups i).headI ∈ s.vertexGroups i := headI_mem_of_ne_nil hne
  have hreplt : (s.vertexGroups i).headI < s.count := ((hwf i hi).2 _ hrep).1
  by_cases hexp : s.activityTimer - delta ≤ 0
  · rw [update_of_expired sqrt delta s hinit hact hexp]
    simp only [SoftBody.resetToOriginal]
    rw [if_pos hjlt, if_pos hreplt, if_pos hjlt, if_pos hreplt]
    exact ⟨rfl, rfl⟩
  · push_neg at hexp
    rw [update_of_running sqrt delta s hinit hact hexp]
    by_cases hmulti : 1 < (s.vertexGroups i).length
    · obtain ⟨np, v, hfan⟩ := integrate_fanout sqrt delta
        (SoftBody.applyPropagation (SoftBody.applySpringForces (SoftBody.resetForces
          { s with activityTimer := s.activityTimer - delta }))) hwf i hi hmulti
      have horig : (SoftBody.applyPropagation (SoftBody.applySpringForces
          (SoftBody.resetForces
            { s with activityTimer := s.activityTimer - delta }))).originalPositions =
          s.originalPositions := rfl
      have hgrp : (SoftBody.applyPropagation (SoftBody.applySpringForces
          (SoftBody.resetForces
            { s with activityTimer := s.activityTimer - delta }))).vertexGroups =
          s.vertexGroups := rfl
      rw [horig, hgrp] at hfan
      have hj' := hfan j hj
      have hr' := hfan _ hrep
      constructor
      · rw [hj'.2, hr'.2]
      · rw [hj'.1, hr'.1]
        exact V3.ext' _ _ (by simp only [V3.sub_x, V3.add_x]; ring)
          (by simp only [V3.sub_y, V3.add_y]; ring)
          (by simp only [V3.sub_z, V3.add_z]; ring)
    · have hgi : s.vertexGroups i = [i] := by
        have hmem := (hwf i hi).1
        rcases hgs : s.vertexGroups i with _ | ⟨a, t⟩
        · rw [hgs] at hmem
          exact absurd hmem (List.not_mem_nil i)
        · rcases t with _ | ⟨b, t'⟩
          · rw [hgs] at hmem
            simp only [List.mem_singleton] at hmem
            rw [hmem]
          · rw [hgs] at hmulti
            exact absurd (by simp) hmulti
      have hhead : (s.vertexGroups i).headI = i := by rw [hgi]; rfl
      rw [hgi] at hj
      simp only [List.mem_singleton] at hj
      subst hj
      rw [hhead]
      exact ⟨rfl, by rw [V3.sub_self', V3.sub_self']⟩

/-- Witness for C3's amended theorem at the concrete paired body. -/
theorem update_group_members_sync_witness :
    (sbPairedActive.vertexGroups =
        buildVertexGroups sbPairedActive.originalPositions sbPairedActive.count) ∧
      sbPairedActive.initialized = true ∧ sbPairedActive.isActive = true ∧
      ∀ i < sbPairedActive.count, ∀ j ∈ sbPairedActive.vertexGroups i,
        (SoftBody.update id (1 / 50 : ℚ) sbPairedActive).vertexVelocities j =
            (SoftBody.update id (1 / 50 : ℚ) sbPairedActive).vertexVelocities
              ((sbPairedActive.vertexGroups i).headI) ∧
          (SoftBody.update id (1 / 50 : ℚ) sbPairedActive).positions j -
              (SoftBody.update id (1 / 50 : ℚ) sbPairedActive).positions
                ((sbPairedActive.vertexGroups i).headI) =
            sbPairedActive.originalPositions j -
              sbPairedActive.originalPositions ((sbPairedActive.vertexGroups i).headI) :=
  ⟨rfl, rfl, rfl, update_group_members_sync id (1 / 50) sbPairedActive rfl rfl rfl⟩

/-- C3 counterexample: the two vertices of `sbPairedActive` share one
vertex group (their rest positions quantize identically) but their rest
positions differ, so after an update tick — here the timer-expiry tick,
which snaps each vertex to its own rest position — the two members'
positions are not identical, refuting the claim as stated. -/
theorem update_group_positions_not_identical :
    1 ∈ sbPairedActive.vertexGroups 0 ∧
      (SoftBody.update id (1 : ℚ) sbPairedActive).positions 1 ≠
        (SoftBody.update id (1 : ℚ) sbPairedActive).positions 0 := by
  constructor
  · exact buildVertexGroups_same_key pairedPos 2 0 1 (by norm_num) (by norm_num)
      (by rw [pairedPos_key0, pairedPos_key1])
  · rw [update_of_expired id 1 sbPairedActive rfl rfl (by norm_num [sbPairedActive])]
    simp only [SoftBody.resetToOriginal]
    rw [if_pos (show 1 < sbPairedActive.count from (by norm_num : (1 : ℕ) < 2)),
      if_pos (show 0 < sbPairedActive.count from (by norm_num : (0 : ℕ) < 2))]
    intro heq
    have hpq : pairedPos 1 = pairedPos 0 := heq
    norm_num [pairedPos, V3.mk.injEq] at hpq
